import Mathlib

/-!
Verification development for the luckydrawAR hand-tracking lucky-draw game.

The TypeScript sources are shallowly embedded:
* numeric coordinates (JS `number`) become `ℚ`;
* wall-clock timestamps (`Date.now()` milliseconds) become `ℤ`;
* a JS property access on a possibly-`undefined` array element
  (`landmarks[i].x` throwing a `TypeError`) is modelled by the `Option`
  monad: the whole computation yields `none` where the source throws;
* `Math.sqrt` has no exact rational counterpart, so definitions that
  compare Euclidean distances are parametrised by an arbitrary function
  `sqrtQ : ℚ → ℚ`; every theorem is proved for all such functions;
* `Math.random()`-driven choices are parametrised by an oracle
  `g : ℕ → ℕ` (reduced modulo the required bound exactly where the
  source multiplies by `Math.random()` and floors).
-/

namespace LuckyDraw

/-- Landmark point, from `types.ts` (`HandLandmark`).  The `z` component is
present in the source type but never read by `analyzeHand`. -/
structure HandLandmark where
  x : ℚ
  y : ℚ
  z : ℚ
  deriving DecidableEq, Inhabited

/-- Handedness label, from `types.ts` (`'Left' | 'Right'`). -/
inductive Handedness where
  | Left
  | Right
  deriving DecidableEq, Inhabited

/-- Facing classification, from `types.ts` (`'Palm' | 'Back'`). -/
inductive Facing where
  | Palm
  | Back
  deriving DecidableEq, Inhabited

/-- Result of `analyzeHand`, from `types.ts` (`DetectedHand`).  The centroid
object `{x, y}` is flattened into two fields. -/
structure DetectedHand where
  id : ℕ
  stableId : ℤ
  landmarks : List HandLandmark
  handedness : Handedness
  facing : Facing
  isFist : Bool
  fingerCount : ℕ
  centroidX : ℚ
  centroidY : ℚ
  deriving DecidableEq

/-- `src/services/handLogic.ts` line 20: squared distance on x and y only. -/
def distanceSq (p1 p2 : HandLandmark) : ℚ :=
  (p1.x - p2.x) ^ 2 + (p1.y - p2.y) ^ 2

/-- One row of `FINGERS_INDICES` (`handLogic.ts` lines 12-17): the landmark
indices (MCP, PIP, DIP, TIP) of one non-thumb finger. -/
structure FingerIdx where
  mcp : ℕ
  pip : ℕ
  dip : ℕ
  tip : ℕ
  deriving DecidableEq

/-- `handLogic.ts` lines 12-17: index, middle, ring, pinky. -/
def FINGERS_INDICES : List FingerIdx :=
  [⟨5, 6, 7, 8⟩, ⟨9, 10, 11, 12⟩, ⟨13, 14, 15, 16⟩, ⟨17, 18, 19, 20⟩]

/-- `handLogic.ts` lines 45-59: the extension test of one finger in the
counting loop, a JS boolean. -/
def fingerExtendedTest (tip pip mcp wrist : HandLandmark) : Bool :=
  decide (distanceSq tip wrist > distanceSq pip wrist * (11 / 10)) &&
    decide (distanceSq tip wrist > distanceSq mcp wrist)

/-- `handLogic.ts` lines 85-93: the (lenient) extension test of one finger in
the fist re-verification loop. -/
def mainFingerExtendedTest (tip pip wrist : HandLandmark) : Bool :=
  decide (distanceSq tip wrist > distanceSq pip wrist)

/-- `handLogic.ts` lines 43-59: the finger-counting loop.  Missing landmarks
abort the computation (`none`), as the JS property access throws. -/
def countExtendedFingers (landmarks : List HandLandmark) (wrist : HandLandmark) :
    List FingerIdx → Option ℕ
  | [] => some 0
  | f :: rest => do
      let tip ← landmarks.get? f.tip
      let pip ← landmarks.get? f.pip
      let mcp ← landmarks.get? f.mcp
      let n ← countExtendedFingers landmarks wrist rest
      pure (n + if fingerExtendedTest tip pip mcp wrist then 1 else 0)

/-- `handLogic.ts` lines 84-93: the fist re-verification loop. -/
def countMainFingersExtended (landmarks : List HandLandmark) (wrist : HandLandmark) :
    List FingerIdx → Option ℕ
  | [] => some 0
  | f :: rest => do
      let tip ← landmarks.get? f.tip
      let pip ← landmarks.get? f.pip
      let n ← countMainFingersExtended landmarks wrist rest
      pure (n + if mainFingerExtendedTest tip pip wrist then 1 else 0)

/-- `src/services/handLogic.ts` lines 24-113, `analyzeHand`.  Facing from the
cross product of wrist→indexMCP and wrist→pinkyMCP; finger count over the
four fingers plus the thumb test; `isFist` iff zero main fingers are
extended; centroid is landmark 9.  A JS `TypeError` from a missing landmark
is modelled as `none`. -/
def analyzeHand (landmarks : List HandLandmark) (index : ℕ)
    (handednessLabel : Handedness) (stableId : ℤ) : Option DetectedHand := do
  let wrist ← landmarks.get? 0
  let indexMcp ← landmarks.get? 5
  let pinkyMcp ← landmarks.get? 17
  let v1x := indexMcp.x - wrist.x
  let v1y := indexMcp.y - wrist.y
  let v2x := pinkyMcp.x - wrist.x
  let v2y := pinkyMcp.y - wrist.y
  let crossZ := v1x * v2y - v1y * v2x
  let facing : Facing := match handednessLabel with
    | .Right => if crossZ < 0 then .Palm else .Back
    | .Left => if crossZ > 0 then .Palm else .Back
  let mainUp ← countExtendedFingers landmarks wrist FINGERS_INDICES
  let thumbTip ← landmarks.get? 4
  let thumbIp ← landmarks.get? 3
  let isNotTucked : Bool := distanceSq thumbTip pinkyMcp > distanceSq thumbIp pinkyMcp
  let isExtendedOut : Bool :=
    distanceSq thumbTip indexMcp > distanceSq thumbIp indexMcp * (12 / 10)
  let fingersUp := mainUp + if isNotTucked && isExtendedOut then 1 else 0
  let mainFingersExtended ← countMainFingersExtended landmarks wrist FINGERS_INDICES
  let isFist : Bool := mainFingersExtended == 0
  let c ← landmarks.get? 9
  pure { id := index
         stableId := if stableId ≠ -1 then stableId else (index : ℤ)
         landmarks := landmarks
         handedness := handednessLabel
         facing := facing
         isFist := isFist
         fingerCount := fingersUp
         centroidX := c.x
         centroidY := c.y }

/-- Evaluated (`getD`-access) form of the finger-counting loop, agreeing with
`countExtendedFingers` on lists long enough for every access. -/
def countExtendedFingersD (landmarks : List HandLandmark) (wrist : HandLandmark) :
    List FingerIdx → ℕ
  | [] => 0
  | f :: rest =>
      countExtendedFingersD landmarks wrist rest +
        if fingerExtendedTest (landmarks.getD f.tip default)
          (landmarks.getD f.pip default) (landmarks.getD f.mcp default) wrist
        then 1 else 0

/-- Evaluated form of the fist re-verification loop. -/
def countMainFingersExtendedD (landmarks : List HandLandmark) (wrist : HandLandmark) :
    List FingerIdx → ℕ
  | [] => 0
  | f :: rest =>
      countMainFingersExtendedD landmarks wrist rest +
        if mainFingerExtendedTest (landmarks.getD f.tip default)
          (landmarks.getD f.pip default) wrist
        then 1 else 0

/-- Number of main (non-thumb) fingers the fist check counts as extended. -/
def mainFingersExtendedD (landmarks : List HandLandmark) : ℕ :=
  countMainFingersExtendedD landmarks (landmarks.getD 0 default) FINGERS_INDICES

/-- Evaluated form of `analyzeHand`'s facing classification. -/
def facingD (landmarks : List HandLandmark) (handednessLabel : Handedness) : Facing :=
  let wrist := landmarks.getD 0 default
  let indexMcp := landmarks.getD 5 default
  let pinkyMcp := landmarks.getD 17 default
  let crossZ := (indexMcp.x - wrist.x) * (pinkyMcp.y - wrist.y) -
    (indexMcp.y - wrist.y) * (pinkyMcp.x - wrist.x)
  match handednessLabel with
  | .Right => if crossZ < 0 then .Palm else .Back
  | .Left => if crossZ > 0 then .Palm else .Back

/-- Evaluated form of `analyzeHand`'s thumb test. -/
def thumbExtendedD (landmarks : List HandLandmark) : Bool :=
  let indexMcp := landmarks.getD 5 default
  let pinkyMcp := landmarks.getD 17 default
  let thumbTip := landmarks.getD 4 default
  let thumbIp := landmarks.getD 3 default
  (decide (distanceSq thumbTip pinkyMcp > distanceSq thumbIp pinkyMcp)) &&
    (decide (distanceSq thumbTip indexMcp > distanceSq thumbIp indexMcp * (12 / 10)))

/-- Evaluated form of `analyzeHand`'s finger counter over the four fingers. -/
def extendedFingerCountD (landmarks : List HandLandmark) : ℕ :=
  countExtendedFingersD landmarks (landmarks.getD 0 default) FINGERS_INDICES

theorem get?_of_lt {α : Type} [Inhabited α] (l : List α) (n : ℕ) (h : n < l.length) :
    l.get? n = some (l.getD n default) := by
  rw [List.getD_eq_getElem l default h, List.get?_eq_getElem?,
    List.getElem?_eq_getElem h]

theorem countExtendedFingers_run (landmarks : List HandLandmark)
    (wrist : HandLandmark) :
    ∀ fs : List FingerIdx,
      (∀ f ∈ fs, f.tip < landmarks.length ∧ f.pip < landmarks.length ∧
        f.mcp < landmarks.length) →
      countExtendedFingers landmarks wrist fs =
        some (countExtendedFingersD landmarks wrist fs)
  | [], _ => rfl
  | f :: rest, h => by
      obtain ⟨h1, h2, h3⟩ := h f (List.mem_cons_self f rest)
      rw [countExtendedFingers, get?_of_lt _ _ h1, get?_of_lt _ _ h2,
        get?_of_lt _ _ h3,
        countExtendedFingers_run landmarks wrist rest
          (fun g hg => h g (List.mem_cons_of_mem f hg))]
      rfl

theorem countMainFingersExtended_run (landmarks : List HandLandmark)
    (wrist : HandLandmark) :
    ∀ fs : List FingerIdx,
      (∀ f ∈ fs, f.tip < landmarks.length ∧ f.pip < landmarks.length) →
      countMainFingersExtended landmarks wrist fs =
        some (countMainFingersExtendedD landmarks wrist fs)
  | [], _ => rfl
  | f :: rest, h => by
      obtain ⟨h1, h2⟩ := h f (List.mem_cons_self f rest)
      rw [countMainFingersExtended, get?_of_lt _ _ h1, get?_of_lt _ _ h2,
        countMainFingersExtended_run landmarks wrist rest
          (fun g hg => h g (List.mem_cons_of_mem f hg))]
      rfl

/-- On a landmark list of at least the required 21 points, `analyzeHand`
succeeds and its fields are the evaluated forms above. -/
theorem analyzeHand_run (landmarks : List HandLandmark) (index : ℕ)
    (handednessLabel : Handedness) (stableId : ℤ) (h : 21 ≤ landmarks.length) :
    analyzeHand landmarks index handednessLabel stableId =
      some { id := index
             stableId := if stableId ≠ -1 then stableId else (index : ℤ)
             landmarks := landmarks
             handedness := handednessLabel
             facing := facingD landmarks handednessLabel
             isFist := mainFingersExtendedD landmarks == 0
             fingerCount := extendedFingerCountD landmarks +
               if thumbExtendedD landmarks then 1 else 0
             centroidX := (landmarks.getD 9 default).x
             centroidY := (landmarks.getD 9 default).y } := by
  have hfs : ∀ f ∈ FINGERS_INDICES, f.tip < landmarks.length ∧
      f.pip < landmarks.length ∧ f.mcp < landmarks.length := by
    intro f hf
    simp only [FINGERS_INDICES, List.mem_cons, List.not_mem_nil, or_false] at hf
    rcases hf with rfl | rfl | rfl | rfl <;> refine ⟨?_, ?_, ?_⟩ <;> dsimp only <;>
      omega
  have hfs' : ∀ f ∈ FINGERS_INDICES, f.tip < landmarks.length ∧
      f.pip < landmarks.length := fun f hf => ⟨(hfs f hf).1, (hfs f hf).2.1⟩
  rw [analyzeHand,
    get?_of_lt _ _ (show 0 < landmarks.length by omega),
    get?_of_lt _ _ (show 5 < landmarks.length by omega),
    get?_of_lt _ _ (show 17 < landmarks.length by omega),
    get?_of_lt _ _ (show 4 < landmarks.length by omega),
    get?_of_lt _ _ (show 3 < landmarks.length by omega),
    get?_of_lt _ _ (show 9 < landmarks.length by omega)]
  simp only [Option.pure_def, Option.bind_eq_bind, Option.some_bind]
  rw [countExtendedFingers_run landmarks _ FINGERS_INDICES hfs]
  simp only [Option.pure_def, Option.bind_eq_bind, Option.some_bind]
  rw [countMainFingersExtended_run landmarks _ FINGERS_INDICES hfs']
  simp only [Option.pure_def, Option.bind_eq_bind, Option.some_bind]
  rfl

/-- Modelled from the spec's wording, for comparison with the code: the
number of folded fingers among the four non-thumb fingers, a finger counting
as folded when its tip-to-wrist (squared) distance does not exceed its
PIP-to-wrist distance. -/
def specFoldedCount (landmarks : List HandLandmark) : ℕ :=
  (FINGERS_INDICES.filter (fun f =>
    decide (distanceSq (landmarks.getD f.tip default) (landmarks.getD 0 default) ≤
      distanceSq (landmarks.getD f.pip default) (landmarks.getD 0 default)))).length

theorem countMain_add_folded (l : List HandLandmark) (w : HandLandmark) :
    ∀ fs : List FingerIdx,
      countMainFingersExtendedD l w fs +
        (fs.filter (fun f => decide (distanceSq (l.getD f.tip default) w ≤
          distanceSq (l.getD f.pip default) w))).length = fs.length
  | [] => rfl
  | f :: rest => by
      have IH := countMain_add_folded l w rest
      rw [countMainFingersExtendedD, List.filter_cons, List.length_cons]
      by_cases hb : distanceSq (l.getD f.tip default) w ≤
          distanceSq (l.getD f.pip default) w
      · have hext : ¬(mainFingerExtendedTest (l.getD f.tip default)
            (l.getD f.pip default) w = true) := by
          simp only [mainFingerExtendedTest, decide_eq_true_eq, gt_iff_lt]
          exact not_lt.mpr hb
        rw [if_neg hext, if_pos (decide_eq_true hb), List.length_cons]
        omega
      · have hext : mainFingerExtendedTest (l.getD f.tip default)
            (l.getD f.pip default) w = true := by
          simp only [mainFingerExtendedTest, decide_eq_true_eq, gt_iff_lt]
          exact not_le.mp hb
        have hnf : ¬(decide (distanceSq (l.getD f.tip default) w ≤
            distanceSq (l.getD f.pip default) w) = true) := by
          simp only [decide_eq_true_eq]
          exact hb
        rw [if_pos hext, if_neg hnf]
        omega

theorem mainFingersExtendedD_add_specFoldedCount (l : List HandLandmark) :
    mainFingersExtendedD l + specFoldedCount l = 4 := by
  have h := countMain_add_folded l (l.getD 0 default) FINGERS_INDICES
  simpa [mainFingersExtendedD, specFoldedCount] using h

/-- The nine landmark indices the fist decision reads: the wrist and the
PIP and TIP of each non-thumb finger.  The thumb chain (1-4) is absent. -/
def fistRelevantIndices : List ℕ := [0, 6, 8, 10, 12, 14, 16, 18, 20]

theorem mainFingersExtendedD_congr (l l' : List HandLandmark)
    (hagree : ∀ k ∈ fistRelevantIndices, l'.getD k default = l.getD k default) :
    mainFingersExtendedD l' = mainFingersExtendedD l := by
  have h0 := hagree 0 (by simp [fistRelevantIndices])
  have h6 := hagree 6 (by simp [fistRelevantIndices])
  have h8 := hagree 8 (by simp [fistRelevantIndices])
  have h10 := hagree 10 (by simp [fistRelevantIndices])
  have h12 := hagree 12 (by simp [fistRelevantIndices])
  have h14 := hagree 14 (by simp [fistRelevantIndices])
  have h16 := hagree 16 (by simp [fistRelevantIndices])
  have h18 := hagree 18 (by simp [fistRelevantIndices])
  have h20 := hagree 20 (by simp [fistRelevantIndices])
  simp only [mainFingersExtendedD, FINGERS_INDICES, countMainFingersExtendedD,
    mainFingerExtendedTest, h0, h6, h8, h10, h12, h14, h16, h18, h20]

/-- C2 (amended).  For every landmark list of at least 21 points,
`analyzeHand` reports `isFist = true` if and only if ALL four of the
non-thumb fingers are folded (tip-to-wrist squared distance not exceeding
PIP-to-wrist squared distance) — the source requires
`mainFingersExtended === 0`, not a 3-of-4 majority — and the fist decision
never reads the thumb landmarks: it depends only on the wrist and the
non-thumb PIP/TIP landmarks (and on none of the other arguments). -/
theorem analyzeHand_isFist_all_folded (l l' : List HandLandmark)
    (index index' : ℕ) (lab lab' : Handedness) (sid sid' : ℤ)
    (h : 21 ≤ l.length) (h' : 21 ≤ l'.length)
    (hagree : ∀ k ∈ fistRelevantIndices, l'.getD k default = l.getD k default) :
    ((analyzeHand l index lab sid).map DetectedHand.isFist = some true ↔
      specFoldedCount l = 4) ∧
    (analyzeHand l' index' lab' sid').map DetectedHand.isFist =
      (analyzeHand l index lab sid).map DetectedHand.isFist := by
  rw [analyzeHand_run l index lab sid h, analyzeHand_run l' index' lab' sid' h']
  have hsum := mainFingersExtendedD_add_specFoldedCount l
  constructor
  · simp only [Option.map_some', Option.some_inj, beq_iff_eq]
    constructor
    · intro hz
      rw [show mainFingersExtendedD l = 0 by simpa using hz] at hsum
      omega
    · intro h4
      rw [h4] at hsum
      simp [show mainFingersExtendedD l = 0 by omega]
  · simp only [Option.map_some', Option.some_inj]
    rw [mainFingersExtendedD_congr l l' hagree]

/-- Concrete 21-point landmark list on which exactly three of the four
non-thumb fingers are folded: the index finger's tip (landmark 8) is farther
from the wrist than its PIP (landmark 6), every other tip is closer. -/
def threeFoldedLandmarks : List HandLandmark :=
  [⟨0, 0, 0⟩,
   ⟨0, 0, 0⟩, ⟨0, 0, 0⟩, ⟨0, 0, 0⟩, ⟨0, 0, 0⟩,
   ⟨1, 0, 0⟩, ⟨1, 0, 0⟩, ⟨2, 0, 0⟩, ⟨3, 0, 0⟩,
   ⟨0, 2, 0⟩, ⟨0, 2, 0⟩, ⟨0, 1, 0⟩, ⟨0, 1, 0⟩,
   ⟨0, 2, 0⟩, ⟨0, 2, 0⟩, ⟨0, 1, 0⟩, ⟨0, 1, 0⟩,
   ⟨2, 2, 0⟩, ⟨0, 2, 0⟩, ⟨0, 1, 0⟩, ⟨0, 1, 0⟩]

/-- C2 counterexample.  On `threeFoldedLandmarks`, three of the four
non-thumb fingers are folded, yet `analyzeHand` reports `isFist = false`:
the claimed "at least 3 folded ⇒ fist" rule does not hold of the code. -/
theorem analyzeHand_isFist_three_folded_counterexample :
    (analyzeHand threeFoldedLandmarks 0 Handedness.Right 5).map DetectedHand.isFist =
      some false ∧ 3 ≤ specFoldedCount threeFoldedLandmarks := by
  constructor
  · rw [analyzeHand_run threeFoldedLandmarks 0 Handedness.Right 5
      (by norm_num [threeFoldedLandmarks])]
    simp only [Option.map_some', Option.some_inj]
    norm_num [mainFingersExtendedD, FINGERS_INDICES, countMainFingersExtendedD,
      mainFingerExtendedTest, threeFoldedLandmarks, distanceSq]
  · norm_num [specFoldedCount, FINGERS_INDICES, threeFoldedLandmarks, distanceSq]

/-- C2 witness: the amended theorem applied at `threeFoldedLandmarks`. -/
theorem analyzeHand_isFist_all_folded_witness :
    ((analyzeHand threeFoldedLandmarks 0 Handedness.Right 5).map DetectedHand.isFist =
        some true ↔ specFoldedCount threeFoldedLandmarks = 4) ∧
    (analyzeHand threeFoldedLandmarks 1 Handedness.Left 7).map DetectedHand.isFist =
      (analyzeHand threeFoldedLandmarks 0 Handedness.Right 5).map DetectedHand.isFist :=
  analyzeHand_isFist_all_folded threeFoldedLandmarks threeFoldedLandmarks 0 1
    Handedness.Right Handedness.Left 5 7 (by norm_num [threeFoldedLandmarks])
    (by norm_num [threeFoldedLandmarks]) (fun k _ => rfl)

theorem countMainFingersExtended_some_bounds (l : List HandLandmark)
    (w : HandLandmark) :
    ∀ fs : List FingerIdx, ∀ n : ℕ,
      countMainFingersExtended l w fs = some n →
      ∀ f ∈ fs, f.tip < l.length
  | [], _, _, f, hf => absurd hf (List.not_mem_nil f)
  | f₀ :: rest, n, h, f, hf => by
      simp only [countMainFingersExtended, Option.pure_def, Option.bind_eq_bind,
        Option.bind_eq_some] at h
      obtain ⟨tip, htip, pip, hpip, m, hm, -⟩ := h
      rcases List.mem_cons.mp hf with rfl | hf'
      · exact (List.get?_eq_some.mp htip).1
      · exact countMainFingersExtended_some_bounds l w rest m hm f hf'

/-- `analyzeHand` succeeds exactly on landmark lists with at least the 21
required points: on a shorter list some landmark access is missing and the
computation fails. -/
theorem analyzeHand_isSome_iff (l : List HandLandmark) (index : ℕ)
    (lab : Handedness) (sid : ℤ) :
    (analyzeHand l index lab sid).isSome ↔ 21 ≤ l.length := by
  constructor
  · intro h
    obtain ⟨hand, hh⟩ := Option.isSome_iff_exists.mp h
    simp only [analyzeHand, Option.pure_def, Option.bind_eq_bind,
      Option.bind_eq_some] at hh
    obtain ⟨w, -, im, -, pm, -, mu, -, tt, -, ti, -, mfe, hmfe, -⟩ := hh
    have h20 := countMainFingersExtended_some_bounds l w FINGERS_INDICES mfe hmfe
      ⟨17, 18, 19, 20⟩ (by simp [FINGERS_INDICES])
    simpa using h20
  · intro h
    rw [analyzeHand_run l index lab sid h]
    rfl

/-! ## EntityTracker

Embedded from `components/CameraLayer.tsx` (the variant of `hands.onResults`
with deduplication, velocity prediction and handedness penalty, lines
1075-1210 of the concatenated file).  Distances computed with `Math.sqrt`
are modelled through the parameter `sqrtQ : ℚ → ℚ`. -/

/-- CameraLayer.tsx line 666. -/
def MAX_TRACKING_DISTANCE : ℚ := 25 / 100

/-- CameraLayer.tsx line 667. -/
def DUPLICATE_HAND_THRESHOLD : ℚ := 8 / 100

/-- CameraLayer.tsx line 668. -/
def FRAME_PERSISTENCE_THRESHOLD : ℕ := 1

/-- CameraLayer.tsx line 669. -/
def MAX_MISSING_FRAMES : ℕ := 60

/-- One raw detection of the pose model for a tick:
`results.multiHandLandmarks[i]` together with the handedness label the
source reads from `results.multiHandedness[i]` (its `'Right'` fallback for
missing handedness data is folded into the label). -/
structure RawDetection where
  landmarks : List HandLandmark
  label : Handedness

/-- CameraLayer.tsx lines 1083-1091: one element of `rawInputs` — the
coordinates of centroid landmark 9, the detection index, and the label. -/
structure RawInput where
  x : ℚ
  y : ℚ
  index : ℕ
  label : Handedness
  deriving DecidableEq

/-- CameraLayer.tsx lines 1083-1091: build `rawInputs` in detection order;
accessing `landmarks[9].x` of a detection with fewer than 10 points throws,
modelled as `none`. -/
def rawInputsOf : ℕ → List RawDetection → Option (List RawInput)
  | _, [] => some []
  | i, d :: rest => do
      let c ← d.landmarks.get? 9
      let rs ← rawInputsOf (i + 1) rest
      pure (⟨c.x, c.y, i, d.label⟩ :: rs)

/-- Euclidean distance of two raw inputs as the source computes it
(`Math.sqrt` of the squared distance). -/
def rawDist (sqrtQ : ℚ → ℚ) (a b : RawInput) : ℚ :=
  sqrtQ ((a.x - b.x) ^ 2 + (a.y - b.y) ^ 2)

/-- CameraLayer.tsx lines 1094-1111: deduplication of raw inputs.  Scanning
in order, each kept input discards every later input within
`DUPLICATE_HAND_THRESHOLD` of it. -/
def dedupInputs (sqrtQ : ℚ → ℚ) : List RawInput → List RawInput
  | [] => []
  | a :: rest =>
      a :: dedupInputs sqrtQ
        (rest.filter (fun b => !(decide (rawDist sqrtQ a b < DUPLICATE_HAND_THRESHOLD))))
  termination_by l => l.length
  decreasing_by
    simp only [List.length_cons]
    exact Nat.lt_succ_of_le (List.length_filter_le _ rest)

/-- Tracked hand, CameraLayer.tsx lines 688-697 (`TrackedHand`). -/
structure Track where
  id : ℕ
  cx : ℚ
  cy : ℚ
  vdx : ℚ
  vdy : ℚ
  lastSeen : ℤ
  frameCount : ℕ
  missingCount : ℕ
  label : Handedness
  tempMpIndex : Option ℕ

/-- The tracker's cross-tick state: `nextStableId` (line 678) and
`tracksRef.current` (line 738). -/
structure TrackerState where
  nextStableId : ℕ
  tracks : List Track

/-- CameraLayer.tsx lines 1114-1118: increment every missing count and
advance every centroid by its velocity before matching. -/
def predictTracks (tracks : List Track) : List Track :=
  tracks.map fun t =>
    { t with missingCount := t.missingCount + 1, cx := t.cx + t.vdx, cy := t.cy + t.vdy }

/-- One candidate pairing of `matches` (CameraLayer.tsx line 1120). -/
structure MatchCand where
  trackIdx : ℕ
  inputIdx : ℕ
  cost : ℚ

/-- CameraLayer.tsx lines 1124-1139: matching cost — distance plus a 0.05
handedness penalty, with the sticky-winner adjustment (−10 within 0.12 of a
winner's last position, +5 otherwise). -/
def matchCost (sqrtQ : ℚ → ℚ) (winning : List ℕ) (t : Track) (inp : RawInput) : ℚ :=
  let dist := sqrtQ ((t.cx - inp.x) ^ 2 + (t.cy - inp.y) ^ 2)
  let handednessPenalty : ℚ := if t.label ≠ inp.label then 5 / 100 else 0
  let cost := dist + handednessPenalty
  if t.id ∈ winning then
    (if dist < 12 / 100 then cost - 10 else cost + 5)
  else cost

/-- CameraLayer.tsx lines 1121-1146, inner loop: candidates of one track
against every input, kept only when the distance is below
`MAX_TRACKING_DISTANCE`. -/
def candidatesForTrack (sqrtQ : ℚ → ℚ) (winning : List ℕ) (t : Track) (ti : ℕ) :
    ℕ → List RawInput → List MatchCand
  | _, [] => []
  | ii, inp :: rest =>
      (if sqrtQ ((t.cx - inp.x) ^ 2 + (t.cy - inp.y) ^ 2) < MAX_TRACKING_DISTANCE
       then [⟨ti, ii, matchCost sqrtQ winning t inp⟩] else []) ++
        candidatesForTrack sqrtQ winning t ti (ii + 1) rest

/-- CameraLayer.tsx lines 1121-1146, outer loop. -/
def candidateMatches (sqrtQ : ℚ → ℚ) (winning : List ℕ) (uniq : List RawInput) :
    ℕ → List Track → List MatchCand
  | _, [] => []
  | ti, t :: rest =>
      candidatesForTrack sqrtQ winning t ti 0 uniq ++
        candidateMatches sqrtQ winning uniq (ti + 1) rest

/-- CameraLayer.tsx lines 1149-1168: walk the cost-sorted candidates and
assign greedily, each track and each input at most once. -/
def greedyAssign : List MatchCand → List ℕ → List ℕ → List (ℕ × ℕ)
  | [], _, _ => []
  | m :: rest, usedT, usedI =>
      if m.trackIdx ∈ usedT ∨ m.inputIdx ∈ usedI then greedyAssign rest usedT usedI
      else (m.trackIdx, m.inputIdx) :: greedyAssign rest (m.trackIdx :: usedT) (m.inputIdx :: usedI)

/-- CameraLayer.tsx lines 1151-1168: apply an assignment to the track list
(by position).  An assigned track blends its velocity (EMA with factor 0.5),
takes the input's centroid and label, refreshes `lastSeen`, increments
`frameCount`, zeroes `missingCount` and remembers the detection index.  The
`none` fallbacks are unreachable for assignments produced by
`greedyAssign`. -/
def applyMatches (now : ℤ) (uniq : List RawInput) (asg : List (ℕ × ℕ)) :
    ℕ → List Track → List Track
  | _, [] => []
  | ti, t :: rest =>
      (match asg.find? (fun p => p.1 == ti) with
       | some p =>
         match uniq.get? p.2 with
         | some inp =>
             { t with
               vdx := t.vdx * (5 / 10) + (inp.x - t.cx) * (5 / 10)
               vdy := t.vdy * (5 / 10) + (inp.y - t.cy) * (5 / 10)
               cx := inp.x
               cy := inp.y
               lastSeen := now
               frameCount := t.frameCount + 1
               missingCount := 0
               label := inp.label
               tempMpIndex := some inp.index }
         | none => t
       | none => t) :: applyMatches now uniq asg (ti + 1) rest

/-- CameraLayer.tsx lines 1170-1183: spawn a fresh track (with a freshly
allocated `nextStableId`) for every input not assigned to a track. -/
def spawnTracks (now : ℤ) (assignedInputs : List ℕ) :
    ℕ → ℕ → List RawInput → List Track × ℕ
  | nextId, _, [] => ([], nextId)
  | nextId, ii, inp :: rest =>
      if ii ∈ assignedInputs then spawnTracks now assignedInputs nextId (ii + 1) rest
      else
        (⟨nextId, inp.x, inp.y, 0, 0, now, 1, 0, inp.label, some inp.index⟩ ::
          (spawnTracks now assignedInputs (nextId + 1) (ii + 1) rest).1,
         (spawnTracks now assignedInputs (nextId + 1) (ii + 1) rest).2)

/-- CameraLayer.tsx lines 1093-1186: the track-state part of one
`onResults` tick, from deduplication to the `missingCount` filter. -/
def tickTracks (sqrtQ : ℚ → ℚ) (winning : List ℕ) (now : ℤ)
    (raws : List RawInput) (st : TrackerState) : TrackerState :=
  let uniq := dedupInputs sqrtQ raws
  let pred := predictTracks st.tracks
  let sorted := (candidateMatches sqrtQ winning uniq 0 pred).mergeSort
    (fun a b => decide (a.cost ≤ b.cost))
  let asg := greedyAssign sorted [] []
  let updated := applyMatches now uniq asg 0 pred
  let (spawned, nextId') := spawnTracks now (asg.map Prod.snd) st.nextStableId 0 uniq
  { nextStableId := nextId'
    tracks := (updated ++ spawned).filter
      (fun t => decide (t.missingCount < MAX_MISSING_FRAMES)) }

/-- CameraLayer.tsx lines 1188-1197: export `finalHands` — every track
matched this tick (`missingCount === 0`) with a live detection index and
enough persistence is analysed; a `TypeError` thrown inside the loop aborts
the whole export (`none`). -/
def exportHands (dets : List RawDetection) : List Track → Option (List DetectedHand)
  | [] => some []
  | t :: rest =>
      if t.missingCount = 0 then
        match t.tempMpIndex with
        | some m =>
          match dets.get? m with
          | some d =>
            if FRAME_PERSISTENCE_THRESHOLD ≤ t.frameCount then do
              let h ← analyzeHand d.landmarks m t.label (t.id : ℤ)
              let hs ← exportHands dets rest
              pure (h :: hs)
            else exportHands dets rest
          | none => exportHands dets rest
        | none => exportHands dets rest
      else exportHands dets rest

/-- One full `hands.onResults` tick (CameraLayer.tsx lines 1075-1209):
returns the new tracker state and the published hand list (`none` when a
thrown `TypeError` prevents the publication; the state is unchanged when the
input-preparation stage itself throws).  The left-to-right sort of line 1198
is applied to the published list.  The `GAME_LOGIC_UPDATE_INTERVAL_MS`
throttle only gates how often `onHandsUpdate` is invoked and is not
modelled. -/
def trackerTick (sqrtQ : ℚ → ℚ) (winning : List ℕ) (now : ℤ)
    (dets : List RawDetection) (st : TrackerState) :
    TrackerState × Option (List DetectedHand) :=
  match rawInputsOf 0 dets with
  | none => (st, none)
  | some raws =>
      let st' := tickTracks sqrtQ winning now raws st
      (st', (exportHands dets st'.tracks).map
        (fun hs => hs.mergeSort (fun a b => decide (a.centroidX ≤ b.centroidX))))

theorem dedupInputs_subset (sqrtQ : ℚ → ℚ) :
    ∀ raws : List RawInput, ∀ a ∈ dedupInputs sqrtQ raws, a ∈ raws
  | [], a, ha => by simp [dedupInputs] at ha
  | r :: rest, a, ha => by
      rw [dedupInputs] at ha
      rcases List.mem_cons.mp ha with rfl | ha'
      · exact List.mem_cons_self a rest
      · exact List.mem_cons_of_mem r
          (List.mem_of_mem_filter (dedupInputs_subset sqrtQ _ a ha'))
  termination_by raws => raws.length
  decreasing_by
    simp only [List.length_cons]
    exact Nat.lt_succ_of_le (List.length_filter_le _ rest)

theorem dedupInputs_pairwise (sqrtQ : ℚ → ℚ) :
    ∀ raws : List RawInput,
      (dedupInputs sqrtQ raws).Pairwise
        (fun a b => ¬ rawDist sqrtQ a b < DUPLICATE_HAND_THRESHOLD)
  | [] => by simp [dedupInputs]
  | r :: rest => by
      rw [dedupInputs]
      refine List.Pairwise.cons ?_ (dedupInputs_pairwise sqrtQ _)
      intro b hb
      have hbf := dedupInputs_subset sqrtQ _ b hb
      have := List.of_mem_filter hbf
      simpa using this
  termination_by raws => raws.length
  decreasing_by
    all_goals simp only [List.length_cons]
    all_goals exact Nat.lt_succ_of_le (List.length_filter_le _ rest)

theorem dedupInputs_covers (sqrtQ : ℚ → ℚ) :
    ∀ raws : List RawInput, ∀ b ∈ raws, ∃ a ∈ dedupInputs sqrtQ raws,
      a = b ∨ rawDist sqrtQ a b < DUPLICATE_HAND_THRESHOLD
  | [], b, hb => absurd hb (List.not_mem_nil b)
  | r :: rest, b, hb => by
      rw [dedupInputs]
      rcases List.mem_cons.mp hb with rfl | hb'
      · exact ⟨b, List.mem_cons_self b _, Or.inl rfl⟩
      · by_cases hd : rawDist sqrtQ r b < DUPLICATE_HAND_THRESHOLD
        · exact ⟨r, List.mem_cons_self r _, Or.inr hd⟩
        · have hbf : b ∈ rest.filter
              (fun c => !(decide (rawDist sqrtQ r c < DUPLICATE_HAND_THRESHOLD))) := by
            refine List.mem_filter.mpr ⟨hb', ?_⟩
            simpa using hd
          obtain ⟨a, ha, hab⟩ := dedupInputs_covers sqrtQ _ b hbf
          exact ⟨a, List.mem_cons_of_mem r ha, hab⟩
  termination_by raws => raws.length
  decreasing_by
    simp only [List.length_cons]
    exact Nat.lt_succ_of_le (List.length_filter_le _ rest)

/-- C5.  On every tick the raw detections are deduplicated before matching
(CameraLayer.tsx lines 1094-1111): among the inputs that survive and go on
to matching and track-spawning, no two lie within
`DUPLICATE_HAND_THRESHOLD` of each other — so two raw detections within the
duplicate-distance threshold never both reach the matcher, and a
double-reported physical hand never produces two tracks.  Every surviving
input is one of the raw ones, and every discarded raw input is within the
threshold of some survivor (one centroid kept, the rest dropped). -/
theorem dedup_collapses_duplicates (sqrtQ : ℚ → ℚ) (raws : List RawInput) :
    (dedupInputs sqrtQ raws).Pairwise
      (fun a b => ¬ rawDist sqrtQ a b < DUPLICATE_HAND_THRESHOLD) ∧
    (∀ a ∈ dedupInputs sqrtQ raws, a ∈ raws) ∧
    (∀ b ∈ raws, ∃ a ∈ dedupInputs sqrtQ raws,
      a = b ∨ rawDist sqrtQ a b < DUPLICATE_HAND_THRESHOLD) :=
  ⟨dedupInputs_pairwise sqrtQ raws, dedupInputs_subset sqrtQ raws,
    dedupInputs_covers sqrtQ raws⟩

theorem predictTracks_mem (tracks : List Track) (t' : Track)
    (h : t' ∈ predictTracks tracks) :
    ∃ u ∈ tracks, t'.id = u.id ∧ t'.missingCount = u.missingCount + 1 := by
  obtain ⟨u, hu, rfl⟩ := List.mem_map.mp h
  exact ⟨u, hu, rfl, rfl⟩

theorem predictTracks_map_id (tracks : List Track) :
    (predictTracks tracks).map Track.id = tracks.map Track.id := by
  simp [predictTracks]

theorem applyMatches_map_id (now : ℤ) (uniq : List RawInput) (asg : List (ℕ × ℕ)) :
    ∀ (ti : ℕ) (tracks : List Track),
      (applyMatches now uniq asg ti tracks).map Track.id = tracks.map Track.id
  | _, [] => rfl
  | ti, t :: rest => by
      rw [applyMatches, List.map_cons, List.map_cons,
        applyMatches_map_id now uniq asg (ti + 1) rest]
      rcases hf : asg.find? (fun p => p.1 == ti) with _ | p
      · rw [hf]
      · rcases hg : uniq.get? p.2 with _ | inp
        · rw [hf]
          simp only [hg]
        · rw [hf]
          simp only [hg]

theorem applyMatches_mem (now : ℤ) (uniq : List RawInput) (asg : List (ℕ × ℕ)) :
    ∀ (ti : ℕ) (tracks : List Track), ∀ t' ∈ applyMatches now uniq asg ti tracks,
      ∃ t ∈ tracks, t'.id = t.id ∧
        ((t'.missingCount = 0 ∧ ∃ inp ∈ uniq, t'.tempMpIndex = some inp.index) ∨
          t' = t)
  | _, [], t', h => absurd h (List.not_mem_nil t')
  | ti, t :: rest, t', h => by
      rw [applyMatches] at h
      rcases List.mem_cons.mp h with h0 | h'
      · refine ⟨t, List.mem_cons_self t rest, ?_⟩
        rcases hf : asg.find? (fun p => p.1 == ti) with _ | p
        · rw [hf] at h0
          exact ⟨by rw [h0], Or.inr h0⟩
        · rcases hg : uniq.get? p.2 with _ | inp
          · rw [hf] at h0
            simp only [hg] at h0
            exact ⟨by rw [h0], Or.inr h0⟩
          · rw [hf] at h0
            simp only [hg] at h0
            exact ⟨by rw [h0], Or.inl ⟨by rw [h0], inp, List.get?_mem hg, by rw [h0]⟩⟩
      · obtain ⟨u, hu, hrest⟩ := applyMatches_mem now uniq asg (ti + 1) rest t' h'
        exact ⟨u, List.mem_cons_of_mem t hu, hrest⟩

theorem spawnTracks_le (now : ℤ) (asg : List ℕ) :
    ∀ (nextId ii : ℕ) (inps : List RawInput),
      nextId ≤ (spawnTracks now asg nextId ii inps).2
  | _, _, [] => le_refl _
  | nextId, ii, inp :: rest => by
      rw [spawnTracks]
      by_cases hmem : ii ∈ asg
      · rw [if_pos hmem]
        exact spawnTracks_le now asg nextId (ii + 1) rest
      · rw [if_neg hmem]
        exact le_trans (Nat.le_succ nextId)
          (spawnTracks_le now asg (nextId + 1) (ii + 1) rest)

theorem spawnTracks_mem (now : ℤ) (asg : List ℕ) :
    ∀ (nextId ii : ℕ) (inps : List RawInput),
      ∀ t ∈ (spawnTracks now asg nextId ii inps).1,
        nextId ≤ t.id ∧ t.id < (spawnTracks now asg nextId ii inps).2 ∧
          t.missingCount = 0 ∧ ∃ inp ∈ inps, t.tempMpIndex = some inp.index
  | _, _, [], t, h => absurd h (List.not_mem_nil t)
  | nextId, ii, inp :: rest, t, h => by
      rw [spawnTracks] at h ⊢
      by_cases hmem : ii ∈ asg
      · rw [if_pos hmem] at h ⊢
        obtain ⟨h1, h2, h3, inp', hinp', h4⟩ :=
          spawnTracks_mem now asg nextId (ii + 1) rest t h
        exact ⟨h1, h2, h3, inp', List.mem_cons_of_mem inp hinp', h4⟩
      · rw [if_neg hmem] at h ⊢
        rcases List.mem_cons.mp h with rfl | h'
        · refine ⟨le_refl _, ?_, rfl, inp, List.mem_cons_self inp rest, rfl⟩
          exact Nat.lt_of_lt_of_le (Nat.lt_succ_self nextId)
            (spawnTracks_le now asg (nextId + 1) (ii + 1) rest)
        · obtain ⟨h1, h2, h3, inp', hinp', h4⟩ :=
            spawnTracks_mem now asg (nextId + 1) (ii + 1) rest t h'
          exact ⟨le_trans (Nat.le_succ nextId) h1, h2, h3, inp',
            List.mem_cons_of_mem inp hinp', h4⟩

theorem spawnTracks_nodup (now : ℤ) (asg : List ℕ) :
    ∀ (nextId ii : ℕ) (inps : List RawInput),
      (((spawnTracks now asg nextId ii inps).1).map Track.id).Nodup
  | _, _, [] => List.nodup_nil
  | nextId, ii, inp :: rest => by
      rw [spawnTracks]
      by_cases hmem : ii ∈ asg
      · rw [if_pos hmem]
        exact spawnTracks_nodup now asg nextId (ii + 1) rest
      · rw [if_neg hmem]
        rw [List.map_cons, List.nodup_cons]
        refine ⟨?_, spawnTracks_nodup now asg (nextId + 1) (ii + 1) rest⟩
        intro hmem'
        obtain ⟨t, ht, hid⟩ := List.mem_map.mp hmem'
        have hid' : t.id = nextId := hid
        have := (spawnTracks_mem now asg (nextId + 1) (ii + 1) rest t ht).1
        omega

/-- Well-formedness of the tracker state: every live track's id was already
allocated (is below `nextStableId`) and live ids are pairwise distinct. -/
def TrackerWF (st : TrackerState) : Prop :=
  (∀ t ∈ st.tracks, t.id < st.nextStableId) ∧ (st.tracks.map Track.id).Nodup

theorem tickTracks_tracks_mem (sqrtQ : ℚ → ℚ) (winning : List ℕ) (now : ℤ)
    (raws : List RawInput) (st : TrackerState) :
    ∀ t ∈ (tickTracks sqrtQ winning now raws st).tracks,
      t.missingCount < MAX_MISSING_FRAMES ∧
      ((∃ u ∈ st.tracks, t.id = u.id ∧
          (t.missingCount = 0 ∨ t.missingCount = u.missingCount + 1)) ∨
        (st.nextStableId ≤ t.id ∧ t.missingCount = 0)) := by
  intro t ht
  rw [tickTracks] at ht
  have hmax := List.of_mem_filter ht
  have hmem := List.mem_of_mem_filter ht
  refine ⟨by simpa using hmax, ?_⟩
  rcases List.mem_append.mp hmem with hupd | hspawn
  · obtain ⟨u', hu', hid, hcase⟩ := applyMatches_mem _ _ _ _ _ t hupd
    obtain ⟨u, hu, huid, humiss⟩ := predictTracks_mem _ u' hu'
    refine Or.inl ⟨u, hu, by omega, ?_⟩
    rcases hcase with ⟨h0, -⟩ | rfl
    · exact Or.inl h0
    · exact Or.inr humiss
  · obtain ⟨h1, -, h3, -⟩ := spawnTracks_mem _ _ _ _ _ t hspawn
    exact Or.inr ⟨h1, h3⟩

theorem tickTracks_invariant (sqrtQ : ℚ → ℚ) (winning : List ℕ) (now : ℤ)
    (raws : List RawInput) (st : TrackerState) (h : TrackerWF st) :
    TrackerWF (tickTracks sqrtQ winning now raws st) ∧
      st.nextStableId ≤ (tickTracks sqrtQ winning now raws st).nextStableId := by
  obtain ⟨hlt, hnodup⟩ := h
  have hle : st.nextStableId ≤ (tickTracks sqrtQ winning now raws st).nextStableId := by
    rw [tickTracks]
    exact spawnTracks_le now _ st.nextStableId 0 (dedupInputs sqrtQ raws)
  refine ⟨⟨?_, ?_⟩, hle⟩
  · intro t ht
    rcases (tickTracks_tracks_mem sqrtQ winning now raws st t ht).2 with
      ⟨u, hu, hid, -⟩ | ⟨h1, -⟩
    · exact lt_of_lt_of_le (hid ▸ hlt u hu) hle
    · rw [tickTracks] at ht ⊢
      have hmem := List.mem_of_mem_filter ht
      rcases List.mem_append.mp hmem with hupd | hspawn
      · obtain ⟨u', hu', hid, -⟩ := applyMatches_mem _ _ _ _ _ t hupd
        obtain ⟨u, hu, huid, -⟩ := predictTracks_mem _ u' hu'
        exact lt_of_lt_of_le (by rw [hid, huid]; exact hlt u hu)
          (spawnTracks_le now _ st.nextStableId 0 (dedupInputs sqrtQ raws))
      · exact (spawnTracks_mem _ _ _ _ _ t hspawn).2.1
  · rw [tickTracks]
    refine List.Nodup.sublist (List.Sublist.map Track.id (List.filter_sublist _)) ?_
    rw [List.map_append]
    rw [applyMatches_map_id, predictTracks_map_id]
    refine List.Nodup.append hnodup (spawnTracks_nodup now _ st.nextStableId 0 _) ?_
    intro a ha ha'
    obtain ⟨u, hu, huid⟩ := List.mem_map.mp ha
    obtain ⟨t, ht, htid⟩ := List.mem_map.mp ha'
    have h1 : st.nextStableId ≤ t.id :=
      (spawnTracks_mem now _ st.nextStableId 0 _ t ht).1
    have h2 : u.id < st.nextStableId := hlt u hu
    omega

/-- C8.  Stable track ids are unique for the process lifetime.  For one
`onResults` tick from any well-formed tracker state: the new state is
well-formed (ids pairwise distinct and below the allocator); the allocator
`nextStableId` never decreases; every surviving track either keeps an id
that was already live or carries a freshly allocated id at least the old
`nextStableId` (so an id removed earlier — necessarily below the allocator
at its removal — can never be re-issued); every surviving track has
`missingCount < MAX_MISSING_FRAMES`, and a track unmatched this tick has
its missing count incremented, so a track unmatched past the ceiling is
removed. -/
theorem trackIds_unique_and_fresh (sqrtQ : ℚ → ℚ) (winning : List ℕ) (now : ℤ)
    (raws : List RawInput) (st : TrackerState) (h : TrackerWF st) :
    TrackerWF (tickTracks sqrtQ winning now raws st) ∧
    st.nextStableId ≤ (tickTracks sqrtQ winning now raws st).nextStableId ∧
    (∀ t ∈ (tickTracks sqrtQ winning now raws st).tracks,
      t.id ∈ st.tracks.map Track.id ∨ st.nextStableId ≤ t.id) ∧
    (∀ t ∈ (tickTracks sqrtQ winning now raws st).tracks,
      t.missingCount < MAX_MISSING_FRAMES) ∧
    (∀ t ∈ (tickTracks sqrtQ winning now raws st).tracks,
      t.missingCount = 0 ∨
        ∃ u ∈ st.tracks, u.id = t.id ∧ t.missingCount = u.missingCount + 1) := by
  obtain ⟨hwf, hle⟩ := tickTracks_invariant sqrtQ winning now raws st h
  refine ⟨hwf, hle, ?_, ?_, ?_⟩
  · intro t ht
    rcases (tickTracks_tracks_mem sqrtQ winning now raws st t ht).2 with
      ⟨u, hu, hid, -⟩ | ⟨h1, -⟩
    · exact Or.inl (List.mem_map.mpr ⟨u, hu, hid.symm⟩)
    · exact Or.inr h1
  · intro t ht
    exact (tickTracks_tracks_mem sqrtQ winning now raws st t ht).1
  · intro t ht
    rcases (tickTracks_tracks_mem sqrtQ winning now raws st t ht).2 with
      ⟨u, hu, hid, hm⟩ | ⟨-, h0⟩
    · rcases hm with h0 | h1
      · exact Or.inl h0
      · exact Or.inr ⟨u, hu, hid.symm, h1⟩
    · exact Or.inl h0

/-- C8 witness: the invariant theorem applied to the freshly initialised
tracker (`nextStableId = 1000`, no tracks) receiving one detection. -/
theorem trackIds_unique_and_fresh_witness :
    TrackerWF (tickTracks (fun q => q) [] 0 [⟨0, 0, 0, Handedness.Right⟩]
      ⟨1000, []⟩) ∧
    (1000 : ℕ) ≤ (tickTracks (fun q => q) [] 0 [⟨0, 0, 0, Handedness.Right⟩]
      ⟨1000, []⟩).nextStableId ∧
    (∀ t ∈ (tickTracks (fun q => q) [] 0 [⟨0, 0, 0, Handedness.Right⟩]
        ⟨1000, []⟩).tracks,
      t.id ∈ (TrackerState.mk 1000 []).tracks.map Track.id ∨ 1000 ≤ t.id) ∧
    (∀ t ∈ (tickTracks (fun q => q) [] 0 [⟨0, 0, 0, Handedness.Right⟩]
        ⟨1000, []⟩).tracks, t.missingCount < MAX_MISSING_FRAMES) ∧
    (∀ t ∈ (tickTracks (fun q => q) [] 0 [⟨0, 0, 0, Handedness.Right⟩]
        ⟨1000, []⟩).tracks,
      t.missingCount = 0 ∨
        ∃ u ∈ (TrackerState.mk 1000 []).tracks, u.id = t.id ∧
          t.missingCount = u.missingCount + 1) :=
  trackIds_unique_and_fresh (fun q => q) [] 0 [⟨0, 0, 0, Handedness.Right⟩]
    ⟨1000, []⟩ ⟨fun t ht => absurd ht (List.not_mem_nil t), List.nodup_nil⟩

theorem rawInputsOf_isSome :
    ∀ (i : ℕ) (dets : List RawDetection),
      (∀ d ∈ dets, 10 ≤ d.landmarks.length) → (rawInputsOf i dets).isSome
  | _, [], _ => rfl
  | i, d :: rest, h => by
      rw [rawInputsOf]
      have h9 : 9 < d.landmarks.length := by
        have := h d (List.mem_cons_self d rest)
        omega
      rw [get?_of_lt _ _ h9]
      have hrest := rawInputsOf_isSome (i + 1) rest
        (fun d' hd' => h d' (List.mem_cons_of_mem d hd'))
      obtain ⟨rs, hrs⟩ := Option.isSome_iff_exists.mp hrest
      rw [hrs]
      rfl

theorem exportHands_isSome (dets : List RawDetection)
    (hall : ∀ d ∈ dets, 21 ≤ d.landmarks.length) :
    ∀ tracks : List Track, (exportHands dets tracks).isSome
  | [] => rfl
  | t :: rest => by
      rw [exportHands]
      by_cases h0 : t.missingCount = 0
      · rw [if_pos h0]
        rcases hm : t.tempMpIndex with _ | m
        · exact exportHands_isSome dets hall rest
        · simp only [hm]
          rcases hd : dets.get? m with _ | d
          · simp only [hd]
            exact exportHands_isSome dets hall rest
          · simp only [hd]
            by_cases hf : FRAME_PERSISTENCE_THRESHOLD ≤ t.frameCount
            · rw [if_pos hf]
              have ha : (analyzeHand d.landmarks m t.label (t.id : ℤ)).isSome :=
                (analyzeHand_isSome_iff _ _ _ _).mpr (hall d (List.get?_mem hd))
              obtain ⟨hand, hh⟩ := Option.isSome_iff_exists.mp ha
              obtain ⟨hs, hhs⟩ := Option.isSome_iff_exists.mp
                (exportHands_isSome dets hall rest)
              rw [hh]
              simp only [Option.pure_def, Option.bind_eq_bind, Option.some_bind, hhs]
              rfl
            · rw [if_neg hf]
              exact exportHands_isSome dets hall rest
      · rw [if_neg h0]
        exact exportHands_isSome dets hall rest

/-- C7.  `analyzeHand` fails (the missing-landmark access is modelled as
`none`) exactly on landmark lists with fewer than the 21 required points;
the tracker's state transition depends on the detections only through the
prepared raw inputs, so a malformed detection affects at most that tick's
published hand list; and a tick whose detections are all well-formed always
publishes, so the process continues unaffected afterwards. -/
theorem analyzeHand_rejects_malformed :
    (∀ (l : List HandLandmark) (i : ℕ) (lab : Handedness) (s : ℤ),
        l.length < 21 → analyzeHand l i lab s = none) ∧
    (∀ (l : List HandLandmark) (i : ℕ) (lab : Handedness) (s : ℤ),
        21 ≤ l.length → (analyzeHand l i lab s).isSome) ∧
    (∀ (sqrtQ : ℚ → ℚ) (winning : List ℕ) (now : ℤ)
        (dets dets' : List RawDetection) (st : TrackerState),
        rawInputsOf 0 dets = rawInputsOf 0 dets' →
        (trackerTick sqrtQ winning now dets st).1 =
          (trackerTick sqrtQ winning now dets' st).1) ∧
    (∀ (sqrtQ : ℚ → ℚ) (winning : List ℕ) (now : ℤ)
        (dets : List RawDetection) (st : TrackerState),
        (∀ d ∈ dets, 21 ≤ d.landmarks.length) →
        ((trackerTick sqrtQ winning now dets st).2).isSome) := by
  refine ⟨?_, ?_, ?_, ?_⟩
  · intro l i lab s h
    rcases ha : analyzeHand l i lab s with _ | v
    · rfl
    · have : (analyzeHand l i lab s).isSome := by rw [ha]; rfl
      have := (analyzeHand_isSome_iff l i lab s).mp this
      omega
  · intro l i lab s h
    exact (analyzeHand_isSome_iff l i lab s).mpr h
  · intro sqrtQ winning now dets dets' st hr
    rw [trackerTick, trackerTick, ← hr]
    rcases hx : rawInputsOf 0 dets with _ | raws <;> simp only [hx]
  · intro sqrtQ winning now dets st hall
    have h10 : ∀ d ∈ dets, 10 ≤ d.landmarks.length := by
      intro d hd
      have := hall d hd
      omega
    obtain ⟨raws, hraws⟩ := Option.isSome_iff_exists.mp
      (rawInputsOf_isSome 0 dets h10)
    rw [trackerTick]
    simp only [hraws]
    rw [Option.isSome_map']
    exact exportHands_isSome dets hall _

/-- C7 witness: the empty landmark list is rejected, and a tick whose
detections are all well-formed publishes. -/
theorem analyzeHand_rejects_malformed_witness :
    analyzeHand [] 0 Handedness.Right (-1) = none ∧
    ((trackerTick (fun q => q) [] 0 [] ⟨1000, []⟩).2).isSome :=
  ⟨analyzeHand_rejects_malformed.1 [] 0 Handedness.Right (-1) (by simp),
   analyzeHand_rejects_malformed.2.2.2 (fun q => q) [] 0 [] ⟨1000, []⟩
     (fun d hd => absurd hd (List.not_mem_nil d))⟩

/-! ## GameStateMachine

Embedded from `src/App.tsx`.  Claims C1, C3, C4, C9, C10 refer to the first
variant of the file (stable-id based, `SETUP` phase); claim C6 refers to the
second variant (the `SET_WINNER_COUNT` phase).  The phase enumeration below
is the union of the two `GameState` enums of `types.ts`. -/

/-- Game phase, union of the two `GameState` enum variants in `types.ts`. -/
inductive GameState where
  | IDLE
  | SETUP
  | DETECT_PARTICIPANTS
  | WAIT_FOR_FISTS_READY
  | SET_WINNER_COUNT
  | WAIT_FOR_FISTS_PRE_DRAW
  | DRAWING
  | SHOW_WINNER
  deriving DecidableEq

/-- The fields of a `DetectedHand` the game loop reads. -/
structure AppHand where
  stableId : ℤ
  facing : Facing
  isFist : Bool
  fingerCount : ℤ
  deriving DecidableEq, Inhabited

/-- The JS destructuring swap `[a[i], a[j]] = [a[j], a[i]]` of
`App.tsx` line 332 on a list: both positions are read before writing. -/
def listSwap (l : List ℕ) (i j : ℕ) : List ℕ :=
  (l.set i (l.getD j 0)).set j (l.getD i 0)

/-- The Fisher-Yates loop of `performDraw` (`App.tsx` lines 330-333):
iteration index `i` counts down to 1, swapping position `i` with position
`g i % (i + 1)` — the source's `Math.floor(Math.random() * (i + 1))`,
driven here by the oracle `g`. -/
def fyLoop (g : ℕ → ℕ) : ℕ → List ℕ → List ℕ
  | 0, l => l
  | i + 1, l => fyLoop g i (listSwap l (i + 1) (g (i + 1) % (i + 2)))

/-- `App.tsx` lines 329-333: the shuffled pool `indices`. -/
def shuffledIndices (g : ℕ → ℕ) (poolSize : ℕ) : List ℕ :=
  fyLoop g (poolSize - 1) (List.range poolSize)

/-- Output of `performDraw`: the frozen winning ids, the phase entered by
`changeState(GameState.SHOW_WINNER)` (line 343), and the intermediate
quantities the claims mention. -/
structure DrawResult where
  poolSize : ℕ
  countToSelect : ℕ
  winningIds : List ℤ
  nextState : GameState
  deriving DecidableEq

/-- `src/App.tsx` lines 324-344, `performDraw`. -/
def performDraw (detectedHands : List AppHand) (participantCount winnerCount : ℕ)
    (g : ℕ → ℕ) : DrawResult :=
  let currentHandCount := detectedHands.length
  let poolSize := if currentHandCount > 0 then currentHandCount else participantCount
  let countToSelect := min winnerCount poolSize
  let indices := shuffledIndices g poolSize
  let winningIndices := indices.take countToSelect
  let winningIds := (winningIndices.map (fun idx =>
      match detectedHands.get? idx with
      | some h => h.stableId
      | none => (-1 : ℤ))).filter (fun id => id ≠ -1)
  { poolSize := poolSize
    countToSelect := countToSelect
    winningIds := winningIds
    nextState := GameState.SHOW_WINNER }

theorem getD_cons_set_perm :
    ∀ (l : List ℕ) (k : ℕ) (a : ℕ), k < l.length →
      (l.getD k 0 :: l.set k a).Perm (a :: l)
  | b :: t, 0, a, _ => by
      simpa using List.Perm.swap a b t
  | b :: t, k + 1, a, h => by
      have IH := getD_cons_set_perm t k a (by simpa using h)
      exact (List.Perm.swap b (t.getD k 0) (t.set k a)).trans
        ((IH.cons b).trans (List.Perm.swap a b t))

theorem listSwap_perm :
    ∀ (l : List ℕ) (i j : ℕ), i < l.length → j < l.length →
      (listSwap l i j).Perm l
  | a :: t, 0, 0, _, _ => by
      simp [listSwap]
  | a :: t, 0, j + 1, _, hj => by
      simp only [listSwap, List.set_cons_zero, List.getD_cons_succ,
        List.set_cons_succ, List.getD_cons_zero]
      exact getD_cons_set_perm t j a (by simpa using hj)
  | a :: t, i + 1, 0, hi, _ => by
      simp only [listSwap, List.set_cons_zero, List.getD_cons_succ,
        List.set_cons_succ, List.getD_cons_zero]
      exact getD_cons_set_perm t i a (by simpa using hi)
  | a :: t, i + 1, j + 1, hi, hj => by
      simp only [listSwap, List.getD_cons_succ, List.set_cons_succ]
      exact (listSwap_perm t i j (by simpa using hi) (by simpa using hj)).cons a

theorem listSwap_length (l : List ℕ) (i j : ℕ) :
    (listSwap l i j).length = l.length := by
  simp [listSwap]

theorem fyLoop_perm (g : ℕ → ℕ) :
    ∀ (i : ℕ) (l : List ℕ), i < l.length → (fyLoop g i l).Perm l
  | 0, l, _ => List.Perm.refl l
  | i + 1, l, h => by
      have hj : g (i + 1) % (i + 2) < l.length :=
        lt_of_lt_of_le (Nat.mod_lt _ (Nat.succ_pos (i + 1))) h
      have hswap := listSwap_perm l (i + 1) (g (i + 1) % (i + 2)) h hj
      have hlen : i < (listSwap l (i + 1) (g (i + 1) % (i + 2))).length := by
        rw [listSwap_length]
        omega
      exact (fyLoop_perm g i _ hlen).trans hswap

/-- The Fisher-Yates shuffle of `performDraw` permutes the pool
`[0, poolSize)`. -/
theorem shuffledIndices_perm (g : ℕ → ℕ) (poolSize : ℕ) :
    (shuffledIndices g poolSize).Perm (List.range poolSize) := by
  rcases poolSize with _ | n
  · exact List.Perm.refl _
  · exact fyLoop_perm g n (List.range (n + 1)) (by simp)

theorem map_filter_stableIds (hands : List AppHand)
    (hid : ∀ h ∈ hands, h.stableId ≠ -1) :
    ∀ S : List ℕ, (∀ idx ∈ S, idx < hands.length) →
      ((S.map (fun idx =>
          match hands.get? idx with
          | some h => h.stableId
          | none => (-1 : ℤ))).filter (fun id => id ≠ -1)) =
        S.map (fun idx => (hands.getD idx default).stableId)
  | [], _ => rfl
  | idx :: rest, hS => by
      have hlt : idx < hands.length := hS idx (List.mem_cons_self idx rest)
      rw [List.map_cons, List.map_cons, List.filter_cons]
      rw [get?_of_lt hands idx hlt]
      have hmemh : hands.getD idx default ∈ hands := by
        rw [List.getD_eq_getElem hands default hlt]
        exact List.getElem_mem hlt
      have hne : (hands.getD idx default).stableId ≠ -1 := hid _ hmemh
      rw [if_pos (by simpa using hne)]
      rw [map_filter_stableIds hands hid rest
        (fun j hj => hS j (List.mem_cons_of_mem idx hj))]

/-- C1.  With at least one visible hand: `poolSize` is the visible-hand
count; `countToSelect = min(winnerCount, poolSize)` and so never exceeds
`poolSize`; the shuffled pool is a permutation of `[0, poolSize)` produced
by the Fisher-Yates loop, hence the `countToSelect` selected indices are
distinct and in range; and (as no tracker id is −1) `winningTrackIds` is
exactly the selected indices mapped to the stable ids of the currently
visible hands, frozen in the result, with the round entering
`SHOW_WINNER`. -/
theorem performDraw_spec (hands : List AppHand)
    (participantCount winnerCount : ℕ) (g : ℕ → ℕ)
    (hne : hands ≠ []) (hid : ∀ h ∈ hands, h.stableId ≠ -1) :
    (performDraw hands participantCount winnerCount g).poolSize = hands.length ∧
    (performDraw hands participantCount winnerCount g).countToSelect =
      min winnerCount (performDraw hands participantCount winnerCount g).poolSize ∧
    (performDraw hands participantCount winnerCount g).countToSelect ≤
      (performDraw hands participantCount winnerCount g).poolSize ∧
    (shuffledIndices g (performDraw hands participantCount winnerCount g).poolSize).Perm
      (List.range (performDraw hands participantCount winnerCount g).poolSize) ∧
    ((shuffledIndices g (performDraw hands participantCount winnerCount g).poolSize).take
      (performDraw hands participantCount winnerCount g).countToSelect).Nodup ∧
    (∀ idx ∈ (shuffledIndices g (performDraw hands participantCount winnerCount g).poolSize).take
      (performDraw hands participantCount winnerCount g).countToSelect,
      idx < hands.length) ∧
    (performDraw hands participantCount winnerCount g).winningIds =
      ((shuffledIndices g (performDraw hands participantCount winnerCount g).poolSize).take
        (performDraw hands participantCount winnerCount g).countToSelect).map
        (fun idx => (hands.getD idx default).stableId) ∧
    (performDraw hands participantCount winnerCount g).nextState =
      GameState.SHOW_WINNER := by
  have hpos : 0 < hands.length := List.length_pos.mpr hne
  have hpool : (performDraw hands participantCount winnerCount g).poolSize =
      hands.length := by
    simp [performDraw, hpos]
  have hperm := shuffledIndices_perm g hands.length
  have hmem : ∀ idx ∈ (shuffledIndices g hands.length).take
      (min winnerCount hands.length), idx < hands.length := by
    intro idx hidx
    have hidx' : idx ∈ shuffledIndices g hands.length :=
      List.mem_of_mem_take hidx
    have := hperm.mem_iff.mp hidx'
    simpa using this
  have hcount : (performDraw hands participantCount winnerCount g).countToSelect =
      min winnerCount hands.length := by
    simp [performDraw, hpos]
  refine ⟨hpool, ?_, ?_, ?_, ?_, ?_, ?_, rfl⟩
  · rw [hcount, hpool]
  · rw [hcount, hpool]
    exact min_le_right _ _
  · rw [hpool]
    exact hperm
  · rw [hpool, hcount]
    exact List.Nodup.sublist (List.take_sublist _ _)
      (hperm.nodup_iff.mpr (List.nodup_range _))
  · rw [hpool, hcount]
    exact hmem
  · rw [hpool, hcount]
    have := map_filter_stableIds hands hid
      ((shuffledIndices g hands.length).take (min winnerCount hands.length)) hmem
    simpa [performDraw, hpos] using this

/-- C1 witness: three visible hands with ids 10, 11, 12, two winners. -/
theorem performDraw_spec_witness :
    (performDraw [⟨10, Facing.Palm, true, 0⟩, ⟨11, Facing.Palm, true, 0⟩,
      ⟨12, Facing.Palm, true, 0⟩] 3 2 (fun n => n)).poolSize = 3 ∧
    (performDraw [⟨10, Facing.Palm, true, 0⟩, ⟨11, Facing.Palm, true, 0⟩,
      ⟨12, Facing.Palm, true, 0⟩] 3 2 (fun n => n)).countToSelect =
      min 2 (performDraw [⟨10, Facing.Palm, true, 0⟩, ⟨11, Facing.Palm, true, 0⟩,
        ⟨12, Facing.Palm, true, 0⟩] 3 2 (fun n => n)).poolSize ∧
    (performDraw [⟨10, Facing.Palm, true, 0⟩, ⟨11, Facing.Palm, true, 0⟩,
      ⟨12, Facing.Palm, true, 0⟩] 3 2 (fun n => n)).countToSelect ≤
      (performDraw [⟨10, Facing.Palm, true, 0⟩, ⟨11, Facing.Palm, true, 0⟩,
        ⟨12, Facing.Palm, true, 0⟩] 3 2 (fun n => n)).poolSize := by
  have h := performDraw_spec [⟨10, Facing.Palm, true, 0⟩, ⟨11, Facing.Palm, true, 0⟩,
    ⟨12, Facing.Palm, true, 0⟩] 3 2 (fun n => n) (by simp) (by decide)
  have hp : (performDraw [⟨10, Facing.Palm, true, 0⟩, ⟨11, Facing.Palm, true, 0⟩,
      ⟨12, Facing.Palm, true, 0⟩] 3 2 (fun n => n)).poolSize = 3 := by
    rw [h.1]
    rfl
  exact ⟨hp, h.2.1, h.2.2.1⟩

/-- C10.  When zero hands are visible at the draw, `poolSize` falls back to
`participantCount`, every drawn index maps to no current hand (the −1
placeholder is filtered out), so `winningTrackIds` is empty and the round
still enters `SHOW_WINNER`. -/
theorem performDraw_no_hands (participantCount winnerCount : ℕ) (g : ℕ → ℕ) :
    (performDraw [] participantCount winnerCount g).winningIds = [] ∧
    (performDraw [] participantCount winnerCount g).poolSize = participantCount ∧
    (performDraw [] participantCount winnerCount g).nextState =
      GameState.SHOW_WINNER := by
  refine ⟨?_, by simp [performDraw], rfl⟩
  simp only [performDraw]
  rw [List.filter_eq_nil_iff]
  intro a ha
  obtain ⟨idx, -, hval⟩ := List.mem_map.mp ha
  simp only [List.get?_nil] at hval
  simp [← hval]

/-- Gesture progress of one track, `App.tsx` lines 8-11 (`GestureState`). -/
structure GestureState where
  step : ℕ
  lastTime : ℤ
  deriving DecidableEq

/-- Stability history of one track's facing,
`App.tsx` line 42 (`handFacingHistory` entries). -/
structure FacingHist where
  facing : Facing
  since : ℤ
  deriving DecidableEq

/-- `App.tsx` line 189. -/
def STABILITY_THRESHOLD : ℤ := 150

/-- `App.tsx` line 200: per-step gesture timeout in milliseconds. -/
def GESTURE_TIMEOUT_MS : ℤ := 2000

/-- Result of processing one hand in the gesture loop: the track's new
facing history, the gesture-state map entry it holds afterwards, and
whether the confirm trigger fired. -/
structure GestureTickResult where
  hist : FacingHist
  gstate : Option GestureState
  trigger : Bool
  deriving DecidableEq

/-- `src/App.tsx` lines 177-225: one hand's pass of the gesture loop (run
only in `DETECT_PARTICIPANTS`).  A changed or fresh facing resets the
stability clock and returns; an unstable facing returns; otherwise the
4-step machine advances on the stable facing, resetting to 0 when the 2 s
step timeout has expired, and the step-3 `Back` completion fires the
trigger exactly when the caller's precondition
(`detectedHands.length > winnerCount`) holds — `gate` here.  The map entry
is only rewritten when the step changes (`App.tsx` lines 222-224). -/
def gestureTick (now : ℤ) (facing : Facing) (hist? : Option FacingHist)
    (g? : Option GestureState) (gate : Bool) : GestureTickResult :=
  match hist? with
  | none => ⟨⟨facing, now⟩, g?, false⟩
  | some hist =>
    if hist.facing ≠ facing then ⟨⟨facing, now⟩, g?, false⟩
    else if now - hist.since < STABILITY_THRESHOLD then ⟨hist, g?, false⟩
    else
      let stableFacing := hist.facing
      let gState0 := g?.getD ⟨0, now⟩
      let gState := if gState0.step > 0 ∧ now - gState0.lastTime > GESTURE_TIMEOUT_MS
        then (⟨0, now⟩ : GestureState) else gState0
      let nextStep :=
        if gState.step = 0 then (if stableFacing = Facing.Palm then 1 else gState.step)
        else if gState.step = 1 then
          (if stableFacing = Facing.Back then 2 else gState.step)
        else if gState.step = 2 then
          (if stableFacing = Facing.Palm then 3 else gState.step)
        else if gState.step = 3 then
          (if stableFacing = Facing.Back then 0 else gState.step)
        else gState.step
      let trigger := gState.step = 3 ∧ stableFacing = Facing.Back ∧ gate = true
      let g' := if nextStep ≠ gState.step then some (⟨nextStep, now⟩ : GestureState)
        else g?
      ⟨hist, g', decide trigger⟩

/-- The step-transition table of `App.tsx` lines 204-220. -/
def gestureNextStep (s : ℕ) (f : Facing) : ℕ :=
  if s = 0 then (if f = Facing.Palm then 1 else s)
  else if s = 1 then (if f = Facing.Back then 2 else s)
  else if s = 2 then (if f = Facing.Palm then 3 else s)
  else if s = 3 then (if f = Facing.Back then 0 else s)
  else s

theorem gestureTick_stable (now since t : ℤ) (s : ℕ) (facing : Facing)
    (gate : Bool) (hstab : STABILITY_THRESHOLD ≤ now - since)
    (htim : 0 < s → now - t ≤ GESTURE_TIMEOUT_MS) :
    gestureTick now facing (some ⟨facing, since⟩) (some ⟨s, t⟩) gate =
      ⟨⟨facing, since⟩,
       (if gestureNextStep s facing ≠ s then
          some (⟨gestureNextStep s facing, now⟩ : GestureState)
        else some ⟨s, t⟩),
       decide (s = 3 ∧ facing = Facing.Back ∧ gate = true)⟩ := by
  have hns : ¬(now - since < STABILITY_THRESHOLD) := not_lt.mpr hstab
  have hto2 : ¬(s > 0 ∧ now - t > GESTURE_TIMEOUT_MS) := by
    rintro ⟨h1, h2⟩
    exact absurd h2 (not_lt.mpr (htim h1))
  simp only [gestureTick, Option.getD_some]
  rw [if_neg (by simp)]
  rw [if_neg hns]
  rw [if_neg hto2]
  rfl

/-- C3 (amended).  For a stable facing (unchanged history, held at least the
150 ms stability window) and a step within the 2 s timeout: the machine
advances 0→1 on Palm, 1→2 on Back, 2→3 on Palm; at step 3 a Back resets the
step to 0 and fires the trigger exactly when the caller's precondition
(visible hands > winnerCount) holds, and since the step returns to 0 the
trigger cannot fire again on the next stable Back — one trigger per
completed sequence.  A stable facing that is not the expected next input
leaves the step unchanged (it does NOT reset it to 0; progress is lost only
through the 2-second step timeout). -/
theorem gestureTick_machine (now since t : ℤ) (s : ℕ) (gate : Bool)
    (hstab : STABILITY_THRESHOLD ≤ now - since)
    (htim : 0 < s → now - t ≤ GESTURE_TIMEOUT_MS) :
    (s = 0 → gestureTick now Facing.Palm (some ⟨Facing.Palm, since⟩)
        (some ⟨s, t⟩) gate = ⟨⟨Facing.Palm, since⟩, some ⟨1, now⟩, false⟩) ∧
    (s = 0 → gestureTick now Facing.Back (some ⟨Facing.Back, since⟩)
        (some ⟨s, t⟩) gate = ⟨⟨Facing.Back, since⟩, some ⟨s, t⟩, false⟩) ∧
    (s = 1 → gestureTick now Facing.Back (some ⟨Facing.Back, since⟩)
        (some ⟨s, t⟩) gate = ⟨⟨Facing.Back, since⟩, some ⟨2, now⟩, false⟩) ∧
    (s = 1 → gestureTick now Facing.Palm (some ⟨Facing.Palm, since⟩)
        (some ⟨s, t⟩) gate = ⟨⟨Facing.Palm, since⟩, some ⟨s, t⟩, false⟩) ∧
    (s = 2 → gestureTick now Facing.Palm (some ⟨Facing.Palm, since⟩)
        (some ⟨s, t⟩) gate = ⟨⟨Facing.Palm, since⟩, some ⟨3, now⟩, false⟩) ∧
    (s = 2 → gestureTick now Facing.Back (some ⟨Facing.Back, since⟩)
        (some ⟨s, t⟩) gate = ⟨⟨Facing.Back, since⟩, some ⟨s, t⟩, false⟩) ∧
    (s = 3 → gestureTick now Facing.Back (some ⟨Facing.Back, since⟩)
        (some ⟨s, t⟩) gate = ⟨⟨Facing.Back, since⟩, some ⟨0, now⟩, gate⟩) ∧
    (s = 3 → gestureTick now Facing.Palm (some ⟨Facing.Palm, since⟩)
        (some ⟨s, t⟩) gate = ⟨⟨Facing.Palm, since⟩, some ⟨s, t⟩, false⟩) := by
  refine ⟨?_, ?_, ?_, ?_, ?_, ?_, ?_, ?_⟩ <;> rintro rfl <;>
    rw [gestureTick_stable now since t _ _ gate hstab htim] <;>
    simp [gestureNextStep]

/-- C3 counterexample.  A track at step 1 (last accepted input: Palm) that
reports a stable Palm again — an input that is out of order for step 1 —
keeps its step at 1 with its old transition time: the code never resets the
step to 0 on an out-of-order stable facing (only the 2 s timeout resets
it). -/
theorem gestureTick_no_reset_counterexample :
    ((gestureTick 1000 Facing.Palm (some ⟨Facing.Palm, 500⟩) (some ⟨1, 900⟩)
      true).gstate).map GestureState.step = some 1 ∧
    (gestureTick 1000 Facing.Palm (some ⟨Facing.Palm, 500⟩) (some ⟨1, 900⟩)
      true).trigger = false := by
  decide

/-- C3 witness: the amended machine theorem applied at step 1 with a stable
facing held for 500 ms and a transition 100 ms old. -/
theorem gestureTick_machine_witness :
    ((1 : ℕ) = 0 → gestureTick 1000 Facing.Palm (some ⟨Facing.Palm, 500⟩)
        (some ⟨1, 900⟩) true = ⟨⟨Facing.Palm, 500⟩, some ⟨1, 1000⟩, false⟩) ∧
    ((1 : ℕ) = 0 → gestureTick 1000 Facing.Back (some ⟨Facing.Back, 500⟩)
        (some ⟨1, 900⟩) true = ⟨⟨Facing.Back, 500⟩, some ⟨1, 900⟩, false⟩) ∧
    ((1 : ℕ) = 1 → gestureTick 1000 Facing.Back (some ⟨Facing.Back, 500⟩)
        (some ⟨1, 900⟩) true = ⟨⟨Facing.Back, 500⟩, some ⟨2, 1000⟩, false⟩) ∧
    ((1 : ℕ) = 1 → gestureTick 1000 Facing.Palm (some ⟨Facing.Palm, 500⟩)
        (some ⟨1, 900⟩) true = ⟨⟨Facing.Palm, 500⟩, some ⟨1, 900⟩, false⟩) ∧
    ((1 : ℕ) = 2 → gestureTick 1000 Facing.Palm (some ⟨Facing.Palm, 500⟩)
        (some ⟨1, 900⟩) true = ⟨⟨Facing.Palm, 500⟩, some ⟨3, 1000⟩, false⟩) ∧
    ((1 : ℕ) = 2 → gestureTick 1000 Facing.Back (some ⟨Facing.Back, 500⟩)
        (some ⟨1, 900⟩) true = ⟨⟨Facing.Back, 500⟩, some ⟨1, 900⟩, false⟩) ∧
    ((1 : ℕ) = 3 → gestureTick 1000 Facing.Back (some ⟨Facing.Back, 500⟩)
        (some ⟨1, 900⟩) true = ⟨⟨Facing.Back, 500⟩, some ⟨0, 1000⟩, true⟩) ∧
    ((1 : ℕ) = 3 → gestureTick 1000 Facing.Palm (some ⟨Facing.Palm, 500⟩)
        (some ⟨1, 900⟩) true = ⟨⟨Facing.Palm, 500⟩, some ⟨1, 900⟩, false⟩) :=
  gestureTick_machine 1000 500 900 1 true (by decide) (fun _ => by decide)

/-- The hold-timer state of the app: `holdStartTimeRef` (null initially),
`lastValidConditionTimeRef` (0 initially), the `timer` displayed in seconds,
and `maxTimerDuration` in seconds. -/
structure HoldState where
  holdStart : Option ℤ
  lastValid : ℤ
  timer : ℚ
  maxTimer : ℚ
  deriving DecidableEq

/-- `App.tsx` line 247: the grace window of the first variant, 1000 ms. -/
def GRACE_PERIOD_MS : ℤ := 1000

/-- `src/App.tsx` lines 230-252, `updateTimerWithGracePeriod`.  Returns the
new timer state and whether `onSuccess` fired.  The JS falsiness test
`!holdStartTimeRef.current` holds for `null` and for the number 0, modelled
by the inner match.  When the condition fails, the hold state is cleared
only once `now − lastConditionMet` exceeds the 1000 ms grace window. -/
def updateTimerWithGracePeriod (now : ℤ) (conditionMet : Bool)
    (requiredTimeMs : ℤ) (st : HoldState) : HoldState × Bool :=
  let maxTimer' := (requiredTimeMs : ℚ) / 1000
  if conditionMet then
    let holdStart : ℤ := match st.holdStart with
      | none => now
      | some h => if h = 0 then now else h
    let elapsed := now - holdStart
    ({ holdStart := some holdStart
       lastValid := now
       timer := (elapsed : ℚ) / 1000
       maxTimer := maxTimer' },
     decide (elapsed > requiredTimeMs))
  else
    if now - st.lastValid > GRACE_PERIOD_MS then
      ({ st with holdStart := none, timer := 0, maxTimer := maxTimer' }, false)
    else ({ st with maxTimer := maxTimer' }, false)

/-- C4.  On each tick of the hold-with-grace-period timer: when the
condition holds, `lastConditionMet` is set to `now`, `holdStart` is set to
`now` exactly when it was absent, the reported timer is
`(now − holdStart)/1000` seconds, and success fires (once, on that tick)
precisely when the elapsed time exceeds the required duration; when the
condition fails, the hold state (`holdStart` and the reported elapsed
timer) is cleared only when `now − lastConditionMet` exceeds the 1000 ms
grace window, and is left untouched — the elapsed time is never reset — by
any interruption still inside the grace window. -/
theorem updateTimerWithGracePeriod_spec (now requiredTimeMs : ℤ)
    (st : HoldState) :
    ((updateTimerWithGracePeriod now true requiredTimeMs st).1.lastValid = now) ∧
    (st.holdStart = none →
      (updateTimerWithGracePeriod now true requiredTimeMs st).1.holdStart =
        some now) ∧
    (∀ h : ℤ, st.holdStart = some h → h ≠ 0 →
      (updateTimerWithGracePeriod now true requiredTimeMs st).1.holdStart =
        some h) ∧
    (∀ h : ℤ,
      (updateTimerWithGracePeriod now true requiredTimeMs st).1.holdStart =
        some h →
      (updateTimerWithGracePeriod now true requiredTimeMs st).1.timer =
        ((now - h : ℤ) : ℚ) / 1000 ∧
      ((updateTimerWithGracePeriod now true requiredTimeMs st).2 = true ↔
        now - h > requiredTimeMs)) ∧
    (now - st.lastValid ≤ GRACE_PERIOD_MS →
      (updateTimerWithGracePeriod now false requiredTimeMs st).1.holdStart =
        st.holdStart ∧
      (updateTimerWithGracePeriod now false requiredTimeMs st).1.timer =
        st.timer ∧
      (updateTimerWithGracePeriod now false requiredTimeMs st).1.lastValid =
        st.lastValid) ∧
    (now - st.lastValid > GRACE_PERIOD_MS →
      (updateTimerWithGracePeriod now false requiredTimeMs st).1.holdStart =
        none ∧
      (updateTimerWithGracePeriod now false requiredTimeMs st).1.timer = 0) ∧
    ((updateTimerWithGracePeriod now false requiredTimeMs st).2 = false) := by
  refine ⟨?_, ?_, ?_, ?_, ?_, ?_, ?_⟩
  · simp [updateTimerWithGracePeriod]
  · intro h0
    simp [updateTimerWithGracePeriod, h0]
  · intro h hh hne
    simp [updateTimerWithGracePeriod, hh, hne]
  · intro h hh
    rcases hs : st.holdStart with _ | h0
    · simp only [updateTimerWithGracePeriod, hs, if_true] at hh ⊢
      simp only [Option.some_inj] at hh
      subst hh
      simp
    · by_cases hz : h0 = 0
      · subst hz
        simp only [updateTimerWithGracePeriod, hs, if_pos rfl, if_true] at hh ⊢
        simp only [Option.some_inj] at hh
        subst hh
        simp
      · simp only [updateTimerWithGracePeriod, hs, if_neg hz, if_true] at hh ⊢
        simp only [Option.some_inj] at hh
        subst hh
        simp
  · intro hg
    have : ¬(now - st.lastValid > GRACE_PERIOD_MS) := not_lt.mpr hg
    simp [updateTimerWithGracePeriod, this]
  · intro hg
    simp [updateTimerWithGracePeriod, hg]
  · by_cases hg : now - st.lastValid > GRACE_PERIOD_MS <;>
      simp [updateTimerWithGracePeriod, hg]

/-- C4 witness: the timer theorem at `now = 5000` on a hold started at
1000 ms with a 3000 ms requirement. -/
theorem updateTimerWithGracePeriod_spec_witness :
    ((updateTimerWithGracePeriod 5000 true 3000
      ⟨some 1000, 4900, 39 / 10, 3⟩).1.lastValid = 5000) ∧
    ((⟨some 1000, 4900, 39 / 10, 3⟩ : HoldState).holdStart = none →
      (updateTimerWithGracePeriod 5000 true 3000
        ⟨some 1000, 4900, 39 / 10, 3⟩).1.holdStart = some 5000) ∧
    (∀ h : ℤ, (⟨some 1000, 4900, 39 / 10, 3⟩ : HoldState).holdStart = some h →
      h ≠ 0 →
      (updateTimerWithGracePeriod 5000 true 3000
        ⟨some 1000, 4900, 39 / 10, 3⟩).1.holdStart = some h) ∧
    (∀ h : ℤ,
      (updateTimerWithGracePeriod 5000 true 3000
        ⟨some 1000, 4900, 39 / 10, 3⟩).1.holdStart = some h →
      (updateTimerWithGracePeriod 5000 true 3000
        ⟨some 1000, 4900, 39 / 10, 3⟩).1.timer = (((5000 - h : ℤ)) : ℚ) / 1000 ∧
      ((updateTimerWithGracePeriod 5000 true 3000
        ⟨some 1000, 4900, 39 / 10, 3⟩).2 = true ↔ 5000 - h > 3000)) ∧
    ((5000 : ℤ) - (⟨some 1000, 4900, 39 / 10, 3⟩ : HoldState).lastValid ≤
        GRACE_PERIOD_MS →
      (updateTimerWithGracePeriod 5000 false 3000
        ⟨some 1000, 4900, 39 / 10, 3⟩).1.holdStart =
        (⟨some 1000, 4900, 39 / 10, 3⟩ : HoldState).holdStart ∧
      (updateTimerWithGracePeriod 5000 false 3000
        ⟨some 1000, 4900, 39 / 10, 3⟩).1.timer =
        (⟨some 1000, 4900, 39 / 10, 3⟩ : HoldState).timer ∧
      (updateTimerWithGracePeriod 5000 false 3000
        ⟨some 1000, 4900, 39 / 10, 3⟩).1.lastValid =
        (⟨some 1000, 4900, 39 / 10, 3⟩ : HoldState).lastValid) ∧
    ((5000 : ℤ) - (⟨some 1000, 4900, 39 / 10, 3⟩ : HoldState).lastValid >
        GRACE_PERIOD_MS →
      (updateTimerWithGracePeriod 5000 false 3000
        ⟨some 1000, 4900, 39 / 10, 3⟩).1.holdStart = none ∧
      (updateTimerWithGracePeriod 5000 false 3000
        ⟨some 1000, 4900, 39 / 10, 3⟩).1.timer = 0) ∧
    ((updateTimerWithGracePeriod 5000 false 3000
      ⟨some 1000, 4900, 39 / 10, 3⟩).2 = false) :=
  updateTimerWithGracePeriod_spec 5000 3000 ⟨some 1000, 4900, 39 / 10, 3⟩

/-- `App.tsx` line 660: the grace window of the second variant, 500 ms. -/
def GRACE_PERIOD_V2_MS : ℤ := 500

/-- `src/App.tsx` lines 644-665 (second variant), the
`updateTimerWithGracePeriod` used by the `SET_WINNER_COUNT` phase; identical
to the first variant except for the 500 ms grace window. -/
def updateTimerWithGracePeriodV2 (now : ℤ) (conditionMet : Bool)
    (requiredTimeMs : ℤ) (st : HoldState) : HoldState × Bool :=
  let maxTimer' := (requiredTimeMs : ℚ) / 1000
  if conditionMet then
    let holdStart : ℤ := match st.holdStart with
      | none => now
      | some h => if h = 0 then now else h
    let elapsed := now - holdStart
    ({ holdStart := some holdStart
       lastValid := now
       timer := (elapsed : ℚ) / 1000
       maxTimer := maxTimer' },
     decide (elapsed > requiredTimeMs))
  else
    if now - st.lastValid > GRACE_PERIOD_V2_MS then
      ({ st with holdStart := none, timer := 0, maxTimer := maxTimer' }, false)
    else ({ st with maxTimer := maxTimer' }, false)

/-- Advisory messages of the `SET_WINNER_COUNT` case
(`App.tsx` lines 714-716); the Korean strings become tags. -/
inductive WinnerWarning where
  | needAtLeastOne
  | fewerThanParticipants
  deriving DecidableEq

/-- The round state the `SET_WINNER_COUNT` case reads and writes:
`candidateWinnerCountRef`, the hold timer, `winnerCount`, the phase and the
advisory message. -/
structure WinnerPhase where
  candidate : Option ℤ
  hold : HoldState
  winnerCount : ℤ
  phase : GameState
  warning : Option WinnerWarning
  deriving DecidableEq

/-- `src/App.tsx` lines 709-733 (second variant), the `SET_WINNER_COUNT`
case of the game loop.  `totalFingers` is the sum of `fingerCount` over the
currently visible hands; a valid sum lies in `[1, max 1 (participantCount −
1)]`; a valid sum different from the candidate restarts the hold
immediately (`holdStart = now`, timer 0) and becomes the candidate and the
winner count; otherwise the hold advances with `isCountStable` as
condition, and on success `changeState(WAIT_FOR_FISTS_PRE_DRAW)` clears the
candidate, the hold and the warning. -/
def setWinnerCountTick (now : ℤ) (hands : List AppHand)
    (participantCount : ℤ) (st : WinnerPhase) : WinnerPhase :=
  let totalFingers := (hands.map AppHand.fingerCount).sum
  let maxAllowed := max 1 (participantCount - 1)
  let isValidCount := 1 ≤ totalFingers ∧ totalFingers ≤ maxAllowed
  let warning : Option WinnerWarning :=
    if totalFingers = 0 then some WinnerWarning.needAtLeastOne
    else if totalFingers ≥ participantCount then
      some WinnerWarning.fewerThanParticipants
    else none
  let isCountStable := isValidCount ∧ st.candidate = some totalFingers
  if isValidCount ∧ st.candidate ≠ some totalFingers then
    { candidate := some totalFingers
      hold := { holdStart := some now, lastValid := now, timer := 0
                maxTimer := st.hold.maxTimer }
      winnerCount := totalFingers
      phase := st.phase
      warning := warning }
  else
    let res := updateTimerWithGracePeriodV2 now (decide isCountStable) 3000 st.hold
    if res.2 then
      { candidate := none
        hold := { holdStart := none, lastValid := 0, timer := 0
                  maxTimer := res.1.maxTimer }
        winnerCount := totalFingers
        phase := GameState.WAIT_FOR_FISTS_PRE_DRAW
        warning := none }
    else
      { st with hold := res.1, warning := warning }

theorem updateTimerWithGracePeriodV2_success (now requiredTimeMs : ℤ)
    (c : Bool) (st : HoldState)
    (h : (updateTimerWithGracePeriodV2 now c requiredTimeMs st).2 = true) :
    c = true := by
  cases c
  · by_cases hg : now - st.lastValid > GRACE_PERIOD_V2_MS <;>
      simp [updateTimerWithGracePeriodV2, hg] at h
  · rfl

theorem setWinnerCountTick_restart (now : ℤ) (hands : List AppHand)
    (participantCount : ℤ) (st : WinnerPhase)
    (hcond : (1 ≤ (hands.map AppHand.fingerCount).sum ∧
      (hands.map AppHand.fingerCount).sum ≤ max 1 (participantCount - 1)) ∧
      st.candidate ≠ some ((hands.map AppHand.fingerCount).sum)) :
    setWinnerCountTick now hands participantCount st =
      { candidate := some ((hands.map AppHand.fingerCount).sum)
        hold := { holdStart := some now, lastValid := now, timer := 0
                  maxTimer := st.hold.maxTimer }
        winnerCount := (hands.map AppHand.fingerCount).sum
        phase := st.phase
        warning := if (hands.map AppHand.fingerCount).sum = 0 then
            some WinnerWarning.needAtLeastOne
          else if (hands.map AppHand.fingerCount).sum ≥ participantCount then
            some WinnerWarning.fewerThanParticipants
          else none } := by
  simp only [setWinnerCountTick]
  rw [if_pos hcond]

theorem setWinnerCountTick_success (now : ℤ) (hands : List AppHand)
    (participantCount : ℤ) (st : WinnerPhase)
    (hcond : ¬((1 ≤ (hands.map AppHand.fingerCount).sum ∧
      (hands.map AppHand.fingerCount).sum ≤ max 1 (participantCount - 1)) ∧
      st.candidate ≠ some ((hands.map AppHand.fingerCount).sum)))
    (hsucc : (updateTimerWithGracePeriodV2 now
      (decide ((1 ≤ (hands.map AppHand.fingerCount).sum ∧
        (hands.map AppHand.fingerCount).sum ≤ max 1 (participantCount - 1)) ∧
        st.candidate = some ((hands.map AppHand.fingerCount).sum)))
      3000 st.hold).2 = true) :
    setWinnerCountTick now hands participantCount st =
      { candidate := none
        hold := { holdStart := none, lastValid := 0, timer := 0
                  maxTimer := (updateTimerWithGracePeriodV2 now
                    (decide ((1 ≤ (hands.map AppHand.fingerCount).sum ∧
                      (hands.map AppHand.fingerCount).sum ≤
                        max 1 (participantCount - 1)) ∧
                      st.candidate = some ((hands.map AppHand.fingerCount).sum)))
                    3000 st.hold).1.maxTimer }
        winnerCount := (hands.map AppHand.fingerCount).sum
        phase := GameState.WAIT_FOR_FISTS_PRE_DRAW
        warning := none } := by
  simp only [setWinnerCountTick]
  rw [if_neg hcond, if_pos hsucc]

theorem setWinnerCountTick_hold (now : ℤ) (hands : List AppHand)
    (participantCount : ℤ) (st : WinnerPhase)
    (hcond : ¬((1 ≤ (hands.map AppHand.fingerCount).sum ∧
      (hands.map AppHand.fingerCount).sum ≤ max 1 (participantCount - 1)) ∧
      st.candidate ≠ some ((hands.map AppHand.fingerCount).sum)))
    (hsucc : (updateTimerWithGracePeriodV2 now
      (decide ((1 ≤ (hands.map AppHand.fingerCount).sum ∧
        (hands.map AppHand.fingerCount).sum ≤ max 1 (participantCount - 1)) ∧
        st.candidate = some ((hands.map AppHand.fingerCount).sum)))
      3000 st.hold).2 = false) :
    setWinnerCountTick now hands participantCount st =
      { st with
        hold := (updateTimerWithGracePeriodV2 now
          (decide ((1 ≤ (hands.map AppHand.fingerCount).sum ∧
            (hands.map AppHand.fingerCount).sum ≤ max 1 (participantCount - 1)) ∧
            st.candidate = some ((hands.map AppHand.fingerCount).sum)))
          3000 st.hold).1
        warning := if (hands.map AppHand.fingerCount).sum = 0 then
            some WinnerWarning.needAtLeastOne
          else if (hands.map AppHand.fingerCount).sum ≥ participantCount then
            some WinnerWarning.fewerThanParticipants
          else none } := by
  simp only [setWinnerCountTick]
  rw [if_neg hcond, if_neg (by rw [hsucc]; exact Bool.false_ne_true)]

/-- C6 (amended).  During `SET_WINNER_COUNT` (with at least two confirmed
participants): the candidate winner count is the sum of `fingerCount` over
the currently visible hands; a change of the sum to a different VALID value
(in `[1, participantCount − 1]`) restarts the hold immediately
(`holdStart := now`, timer 0, no grace period) and records the sum as
candidate and winner count; the winner count and the phase only ever change
to a sum in the valid range, the phase moreover only when the held sum
equals the candidate; but an excursion of the sum to an INVALID value is
treated like visibility loss — inside the 500 ms grace window the hold
state is frozen, not restarted. -/
theorem setWinnerCount_spec (now : ℤ) (hands : List AppHand)
    (participantCount : ℤ) (st : WinnerPhase) (hpc : 2 ≤ participantCount) :
    ((1 ≤ (hands.map AppHand.fingerCount).sum ∧
      (hands.map AppHand.fingerCount).sum ≤ participantCount - 1 ∧
      st.candidate ≠ some ((hands.map AppHand.fingerCount).sum)) →
      (setWinnerCountTick now hands participantCount st).candidate =
        some ((hands.map AppHand.fingerCount).sum) ∧
      (setWinnerCountTick now hands participantCount st).hold.holdStart =
        some now ∧
      (setWinnerCountTick now hands participantCount st).hold.timer = 0 ∧
      (setWinnerCountTick now hands participantCount st).winnerCount =
        (hands.map AppHand.fingerCount).sum ∧
      (setWinnerCountTick now hands participantCount st).phase = st.phase) ∧
    ((setWinnerCountTick now hands participantCount st).winnerCount ≠
        st.winnerCount →
      1 ≤ (hands.map AppHand.fingerCount).sum ∧
      (hands.map AppHand.fingerCount).sum ≤ participantCount - 1) ∧
    ((setWinnerCountTick now hands participantCount st).phase ≠ st.phase →
      (setWinnerCountTick now hands participantCount st).phase =
        GameState.WAIT_FOR_FISTS_PRE_DRAW ∧
      1 ≤ (hands.map AppHand.fingerCount).sum ∧
      (hands.map AppHand.fingerCount).sum ≤ participantCount - 1 ∧
      st.candidate = some ((hands.map AppHand.fingerCount).sum)) ∧
    (¬(1 ≤ (hands.map AppHand.fingerCount).sum ∧
        (hands.map AppHand.fingerCount).sum ≤ participantCount - 1) →
      now - st.hold.lastValid ≤ GRACE_PERIOD_V2_MS →
      (setWinnerCountTick now hands participantCount st).hold.holdStart =
        st.hold.holdStart ∧
      (setWinnerCountTick now hands participantCount st).hold.timer =
        st.hold.timer ∧
      (setWinnerCountTick now hands participantCount st).candidate =
        st.candidate ∧
      (setWinnerCountTick now hands participantCount st).phase = st.phase) := by
  have hmax : max 1 (participantCount - 1) = participantCount - 1 :=
    max_eq_right (by omega)
  refine ⟨?_, ?_, ?_, ?_⟩
  · rintro ⟨h1, h2, h3⟩
    rw [setWinnerCountTick_restart now hands participantCount st
      ⟨⟨h1, by rw [hmax]; exact h2⟩, h3⟩]
    exact ⟨rfl, rfl, rfl, rfl, rfl⟩
  · intro hch
    by_cases hcond : (1 ≤ (hands.map AppHand.fingerCount).sum ∧
        (hands.map AppHand.fingerCount).sum ≤ max 1 (participantCount - 1)) ∧
        st.candidate ≠ some ((hands.map AppHand.fingerCount).sum)
    · refine ⟨hcond.1.1, ?_⟩
      have h := hcond.1.2
      rw [hmax] at h
      exact h
    · cases hsucc : (updateTimerWithGracePeriodV2 now
          (decide ((1 ≤ (hands.map AppHand.fingerCount).sum ∧
            (hands.map AppHand.fingerCount).sum ≤ max 1 (participantCount - 1)) ∧
            st.candidate = some ((hands.map AppHand.fingerCount).sum)))
          3000 st.hold).2 with
      | false =>
          rw [setWinnerCountTick_hold now hands participantCount st hcond hsucc]
            at hch
          exact absurd rfl hch
      | true =>
          have hstable' := of_decide_eq_true
            (updateTimerWithGracePeriodV2_success _ _ _ _ hsucc)
          refine ⟨hstable'.1.1, ?_⟩
          have h := hstable'.1.2
          rw [hmax] at h
          exact h
  · intro hch
    by_cases hcond : (1 ≤ (hands.map AppHand.fingerCount).sum ∧
        (hands.map AppHand.fingerCount).sum ≤ max 1 (participantCount - 1)) ∧
        st.candidate ≠ some ((hands.map AppHand.fingerCount).sum)
    · rw [setWinnerCountTick_restart now hands participantCount st hcond] at hch
      exact absurd rfl hch
    · cases hsucc : (updateTimerWithGracePeriodV2 now
          (decide ((1 ≤ (hands.map AppHand.fingerCount).sum ∧
            (hands.map AppHand.fingerCount).sum ≤ max 1 (participantCount - 1)) ∧
            st.candidate = some ((hands.map AppHand.fingerCount).sum)))
          3000 st.hold).2 with
      | false =>
          rw [setWinnerCountTick_hold now hands participantCount st hcond hsucc]
            at hch
          exact absurd rfl hch
      | true =>
          have hstable' := of_decide_eq_true
            (updateTimerWithGracePeriodV2_success _ _ _ _ hsucc)
          rw [setWinnerCountTick_success now hands participantCount st hcond hsucc]
          refine ⟨rfl, hstable'.1.1, ?_, hstable'.2⟩
          have h := hstable'.1.2
          rw [hmax] at h
          exact h
  · intro hinvalid hgrace
    have hinv' : ¬(1 ≤ (hands.map AppHand.fingerCount).sum ∧
        (hands.map AppHand.fingerCount).sum ≤ max 1 (participantCount - 1)) := by
      rw [hmax]
      exact hinvalid
    have hcond : ¬((1 ≤ (hands.map AppHand.fingerCount).sum ∧
        (hands.map AppHand.fingerCount).sum ≤ max 1 (participantCount - 1)) ∧
        st.candidate ≠ some ((hands.map AppHand.fingerCount).sum)) := by
      rintro ⟨hv, -⟩
      exact hinv' hv
    have hdec : decide ((1 ≤ (hands.map AppHand.fingerCount).sum ∧
        (hands.map AppHand.fingerCount).sum ≤ max 1 (participantCount - 1)) ∧
        st.candidate = some ((hands.map AppHand.fingerCount).sum)) = false := by
      rw [decide_eq_false_iff_not]
      rintro ⟨hv, -⟩
      exact hinv' hv
    have hng : ¬(now - st.hold.lastValid > GRACE_PERIOD_V2_MS) :=
      not_lt.mpr hgrace
    have hupd : updateTimerWithGracePeriodV2 now false 3000 st.hold =
        ({ st.hold with maxTimer := ((3000 : ℤ) : ℚ) / 1000 }, false) := by
      simp only [updateTimerWithGracePeriodV2, Bool.false_eq_true, if_false]
      rw [if_neg hng]
    have hsucc : (updateTimerWithGracePeriodV2 now
        (decide ((1 ≤ (hands.map AppHand.fingerCount).sum ∧
          (hands.map AppHand.fingerCount).sum ≤ max 1 (participantCount - 1)) ∧
          st.candidate = some ((hands.map AppHand.fingerCount).sum)))
        3000 st.hold).2 = false := by
      rw [hdec, hupd]
    rw [setWinnerCountTick_hold now hands participantCount st hcond hsucc,
      hdec, hupd]
    exact ⟨rfl, rfl, rfl, rfl⟩

/-- One visible hand showing five fingers: an invalid sum for four
participants. -/
def invalidChangeHands : List AppHand := [⟨7, Facing.Palm, false, 5⟩]

/-- A `SET_WINNER_COUNT` state holding candidate 2, with a live hold
(started at 100 ms, last valid at 900 ms, 0.8 s on the clock). -/
def invalidChangeState : WinnerPhase :=
  { candidate := some 2
    hold := { holdStart := some 100, lastValid := 900, timer := 4 / 5, maxTimer := 3 }
    winnerCount := 2
    phase := GameState.SET_WINNER_COUNT
    warning := none }

/-- C6 counterexample.  With four participants and candidate 2, the summed
value changes to 5 — but 5 is outside `[1, 3]`, so the code does NOT
restart the hold: within the 500 ms grace window `holdStart` and the timer
are left untouched (`holdStart` stays 100, not `now = 1000`; the timer
stays 0.8, not 0).  The claim that ANY change of the summed value restarts
the hold immediately is false: the grace period also applies to changes to
invalid values, not only to visibility loss. -/
theorem setWinnerCount_invalid_change_counterexample :
    ((invalidChangeHands.map AppHand.fingerCount).sum = 5 ∧
      invalidChangeState.candidate = some 2) ∧
    (setWinnerCountTick 1000 invalidChangeHands 4
      invalidChangeState).hold.holdStart = some 100 ∧
    (setWinnerCountTick 1000 invalidChangeHands 4
      invalidChangeState).hold.timer = 4 / 5 := by
  refine ⟨⟨rfl, rfl⟩, ?_, ?_⟩ <;>
    norm_num [setWinnerCountTick, updateTimerWithGracePeriodV2,
      invalidChangeHands, invalidChangeState, GRACE_PERIOD_V2_MS]

/-- One visible hand showing two fingers: a valid changed sum. -/
def validChangeHands : List AppHand := [⟨7, Facing.Palm, false, 2⟩]

/-- C6 witness: the amended theorem applied at `now = 1000` with four
participants, candidate 1, and the sum changing to the valid value 2. -/
theorem setWinnerCount_spec_witness :
    ((1 ≤ (validChangeHands.map AppHand.fingerCount).sum ∧
      (validChangeHands.map AppHand.fingerCount).sum ≤ 4 - 1 ∧
      invalidChangeState.candidate ≠
        some ((validChangeHands.map AppHand.fingerCount).sum)) →
      (setWinnerCountTick 1000 validChangeHands 4
        invalidChangeState).candidate =
        some ((validChangeHands.map AppHand.fingerCount).sum) ∧
      (setWinnerCountTick 1000 validChangeHands 4
        invalidChangeState).hold.holdStart = some 1000 ∧
      (setWinnerCountTick 1000 validChangeHands 4
        invalidChangeState).hold.timer = 0 ∧
      (setWinnerCountTick 1000 validChangeHands 4
        invalidChangeState).winnerCount =
        (validChangeHands.map AppHand.fingerCount).sum ∧
      (setWinnerCountTick 1000 validChangeHands 4 invalidChangeState).phase =
        invalidChangeState.phase) ∧
    ((setWinnerCountTick 1000 validChangeHands 4
        invalidChangeState).winnerCount ≠ invalidChangeState.winnerCount →
      1 ≤ (validChangeHands.map AppHand.fingerCount).sum ∧
      (validChangeHands.map AppHand.fingerCount).sum ≤ 4 - 1) ∧
    ((setWinnerCountTick 1000 validChangeHands 4 invalidChangeState).phase ≠
        invalidChangeState.phase →
      (setWinnerCountTick 1000 validChangeHands 4 invalidChangeState).phase =
        GameState.WAIT_FOR_FISTS_PRE_DRAW ∧
      1 ≤ (validChangeHands.map AppHand.fingerCount).sum ∧
      (validChangeHands.map AppHand.fingerCount).sum ≤ 4 - 1 ∧
      invalidChangeState.candidate =
        some ((validChangeHands.map AppHand.fingerCount).sum)) ∧
    (¬(1 ≤ (validChangeHands.map AppHand.fingerCount).sum ∧
        (validChangeHands.map AppHand.fingerCount).sum ≤ 4 - 1) →
      1000 - invalidChangeState.hold.lastValid ≤ GRACE_PERIOD_V2_MS →
      (setWinnerCountTick 1000 validChangeHands 4
        invalidChangeState).hold.holdStart =
        invalidChangeState.hold.holdStart ∧
      (setWinnerCountTick 1000 validChangeHands 4
        invalidChangeState).hold.timer = invalidChangeState.hold.timer ∧
      (setWinnerCountTick 1000 validChangeHands 4
        invalidChangeState).candidate = invalidChangeState.candidate ∧
      (setWinnerCountTick 1000 validChangeHands 4 invalidChangeState).phase =
        invalidChangeState.phase) :=
  setWinnerCount_spec 1000 validChangeHands 4 invalidChangeState (by decide)

/-- `App.tsx` line 307: the fixed delayed-capture delay, 500 ms. -/
def CAPTURE_DELAY_MS : ℤ := 500

/-- The capture-related round state: `capturedWinnerIds` (a `Set<number>`),
`captureTimeoutsRef` (the pending `setTimeout`s, here id ↦ scheduled fire
time `now + 500`), and the `shouldCapture` flag. -/
structure CaptureState where
  capturedWinnerIds : List ℤ
  pendingCaptures : List (ℤ × ℤ)
  shouldCapture : Bool
  deriving DecidableEq

/-- `src/App.tsx` lines 294-318: processing of one detected hand in the
`SHOW_WINNER` case.  A winning open hand that is neither captured nor
already pending schedules a delayed capture at `now + 500`; a winning fist
cancels any pending capture for its id (`clearTimeout`). -/
def showWinnerHandStep (now : ℤ) (winning : List ℤ) (st : CaptureState)
    (h : AppHand) : CaptureState :=
  if h.stableId ∈ winning then
    if h.isFist = false ∧ h.stableId ∉ st.capturedWinnerIds then
      if (st.pendingCaptures.find? (fun p => p.1 == h.stableId)).isSome then st
      else { st with pendingCaptures :=
        st.pendingCaptures ++ [(h.stableId, now + CAPTURE_DELAY_MS)] }
    else if h.isFist then
      { st with pendingCaptures :=
        st.pendingCaptures.filter (fun p => !(p.1 == h.stableId)) }
    else st
  else st

/-- `src/App.tsx` lines 293-320: the `SHOW_WINNER` case of the game loop —
`detectedHands.forEach` over `showWinnerHandStep`. -/
def showWinnerTick (now : ℤ) (hands : List AppHand) (winning : List ℤ)
    (st : CaptureState) : CaptureState :=
  hands.foldl (showWinnerHandStep now winning) st

/-- The callback of one delayed capture (`App.tsx` lines 299-307): it marks
the id captured, raises `shouldCapture` and removes itself from the pending
map.  A capture can fire at time `T` only while `(id, T)` is still a member
of `pendingCaptures` — `clearTimeout` removes exactly this entry. -/
def fireCapture (id : ℤ) (st : CaptureState) : CaptureState :=
  { capturedWinnerIds := st.capturedWinnerIds ++ [id]
    pendingCaptures := st.pendingCaptures.filter (fun p => !(p.1 == id))
    shouldCapture := true }

/-- `src/App.tsx` lines 71-86, `handleReset`, restricted to the
capture-related state: every pending timeout is cleared synchronously
(`captureTimeoutsRef.current.forEach(t => clearTimeout(t))` followed by
`clear()`), the captured set and the capture flag are reset. -/
def handleResetCaptures : CaptureState :=
  { capturedWinnerIds := [], pendingCaptures := [], shouldCapture := false }

theorem showWinnerHandStep_captured (now : ℤ) (winning : List ℤ)
    (st : CaptureState) (h : AppHand) :
    (showWinnerHandStep now winning st h).capturedWinnerIds =
      st.capturedWinnerIds := by
  rw [showWinnerHandStep]
  by_cases h1 : h.stableId ∈ winning
  · rw [if_pos h1]
    by_cases h2 : h.isFist = false ∧ h.stableId ∉ st.capturedWinnerIds
    · rw [if_pos h2]
      by_cases h3 : ((st.pendingCaptures.find?
          (fun p => p.1 == h.stableId)).isSome : Prop)
      · rw [if_pos h3]
      · rw [if_neg h3]
    · rw [if_neg h2]
      by_cases h4 : h.isFist = true
      · rw [if_pos h4]
      · rw [if_neg h4]
  · rw [if_neg h1]

theorem showWinnerTick_captured (now : ℤ) (winning : List ℤ) :
    ∀ (hands : List AppHand) (st : CaptureState),
      (showWinnerTick now hands winning st).capturedWinnerIds =
        st.capturedWinnerIds
  | [], _ => rfl
  | h :: rest, st => by
      rw [showWinnerTick, List.foldl_cons,
        ← showWinnerTick, showWinnerTick_captured now winning rest _,
        showWinnerHandStep_captured]

theorem showWinnerHandStep_pending_mono (now : ℤ) (winning : List ℤ)
    (st : CaptureState) (h : AppHand) (p : ℤ × ℤ)
    (hmem : p ∈ st.pendingCaptures) (hk : h.stableId = p.1 → h.isFist = false) :
    p ∈ (showWinnerHandStep now winning st h).pendingCaptures := by
  rw [showWinnerHandStep]
  by_cases h1 : h.stableId ∈ winning
  · rw [if_pos h1]
    by_cases h2 : h.isFist = false ∧ h.stableId ∉ st.capturedWinnerIds
    · rw [if_pos h2]
      by_cases h3 : ((st.pendingCaptures.find?
          (fun p => p.1 == h.stableId)).isSome : Prop)
      · rw [if_pos h3]
        exact hmem
      · rw [if_neg h3]
        exact List.mem_append_left _ hmem
    · rw [if_neg h2]
      by_cases h4 : h.isFist = true
      · rw [if_pos h4]
        refine List.mem_filter.mpr ⟨hmem, ?_⟩
        have : h.stableId ≠ p.1 := fun he => by
          rw [hk he] at h4
          exact Bool.false_ne_true h4
        simp [beq_iff_eq]
        omega
      · rw [if_neg h4]
        exact hmem
  · rw [if_neg h1]
    exact hmem

theorem showWinnerHandStep_pending_none (now : ℤ) (winning : List ℤ)
    (st : CaptureState) (h : AppHand) (k : ℤ)
    (habs : ∀ q ∈ st.pendingCaptures, q.1 ≠ k) (hk : h.stableId ≠ k) :
    ∀ q ∈ (showWinnerHandStep now winning st h).pendingCaptures, q.1 ≠ k := by
  intro q hq
  rw [showWinnerHandStep] at hq
  by_cases h1 : h.stableId ∈ winning
  · rw [if_pos h1] at hq
    by_cases h2 : h.isFist = false ∧ h.stableId ∉ st.capturedWinnerIds
    · rw [if_pos h2] at hq
      by_cases h3 : ((st.pendingCaptures.find?
          (fun p => p.1 == h.stableId)).isSome : Prop)
      · rw [if_pos h3] at hq
        exact habs q hq
      · rw [if_neg h3] at hq
        rcases List.mem_append.mp hq with hq' | hq'
        · exact habs q hq'
        · have : q = (h.stableId, now + CAPTURE_DELAY_MS) := by simpa using hq'
          rw [this]
          exact hk
    · rw [if_neg h2] at hq
      by_cases h4 : h.isFist = true
      · rw [if_pos h4] at hq
        exact habs q (List.mem_of_mem_filter hq)
      · rw [if_neg h4] at hq
        exact habs q hq
  · rw [if_neg h1] at hq
    exact habs q hq

theorem showWinnerTick_pending_mono (now : ℤ) (winning : List ℤ) :
    ∀ (hands : List AppHand) (st : CaptureState) (p : ℤ × ℤ),
      p ∈ st.pendingCaptures →
      (∀ h ∈ hands, h.stableId = p.1 → h.isFist = false) →
      p ∈ (showWinnerTick now hands winning st).pendingCaptures
  | [], _, _, hmem, _ => hmem
  | h :: rest, st, p, hmem, hall => by
      rw [showWinnerTick, List.foldl_cons, ← showWinnerTick]
      exact showWinnerTick_pending_mono now winning rest _ p
        (showWinnerHandStep_pending_mono now winning st h p hmem
          (hall h (List.mem_cons_self h rest)))
        (fun h' hh' => hall h' (List.mem_cons_of_mem h hh'))

theorem showWinnerTick_pending_none (now : ℤ) (winning : List ℤ) :
    ∀ (hands : List AppHand) (st : CaptureState) (k : ℤ),
      (∀ q ∈ st.pendingCaptures, q.1 ≠ k) →
      (∀ h ∈ hands, h.stableId ≠ k) →
      ∀ q ∈ (showWinnerTick now hands winning st).pendingCaptures, q.1 ≠ k
  | [], _, _, habs, _ => habs
  | h :: rest, st, k, habs, hall => by
      rw [showWinnerTick, List.foldl_cons, ← showWinnerTick]
      exact showWinnerTick_pending_none now winning rest _ k
        (showWinnerHandStep_pending_none now winning st h k habs
          (hall h (List.mem_cons_self h rest)))
        (fun h' hh' => hall h' (List.mem_cons_of_mem h hh'))

/-- C9.  During `SHOW_WINNER` (with distinct track ids): a winning hand
seen open (so in particular on its fist→open transition) that is neither
captured nor already pending gets a delayed capture scheduled at the fixed
`now + 500` ms; a winning hand re-closed to a fist before the delay elapses
has every pending capture for its id removed (`clearTimeout`); and
`handleReset` synchronously empties the pending map — since a capture can
fire only from a member of the pending map, no capture ever fires after a
reset. -/
theorem showWinner_capture_gating (now : ℤ) (hands : List AppHand)
    (winning : List ℤ) (st : CaptureState) (h : AppHand)
    (hmem : h ∈ hands) (hwin : h.stableId ∈ winning)
    (hnodup : (hands.map AppHand.stableId).Nodup) :
    (h.isFist = false → h.stableId ∉ st.capturedWinnerIds →
      (∀ q ∈ st.pendingCaptures, q.1 ≠ h.stableId) →
      (h.stableId, now + CAPTURE_DELAY_MS) ∈
        (showWinnerTick now hands winning st).pendingCaptures) ∧
    (h.isFist = true →
      ∀ q ∈ (showWinnerTick now hands winning st).pendingCaptures,
        q.1 ≠ h.stableId) ∧
    handleResetCaptures.pendingCaptures = [] ∧
    handleResetCaptures.shouldCapture = false ∧
    handleResetCaptures.capturedWinnerIds = [] := by
  obtain ⟨s, t, hsplit⟩ := List.append_of_mem hmem
  subst hsplit
  rw [List.map_append, List.map_cons] at hnodup
  rw [List.nodup_append] at hnodup
  obtain ⟨-, hmid, hdisj⟩ := hnodup
  have ht_ne : ∀ h' ∈ t, h'.stableId ≠ h.stableId := by
    intro h' hh' he
    have : h.stableId ∈ t.map AppHand.stableId := by
      rw [← he]
      exact List.mem_map_of_mem AppHand.stableId hh'
    exact (List.nodup_cons.mp hmid).1 this
  have hs_ne : ∀ h' ∈ s, h'.stableId ≠ h.stableId := by
    intro h' hh' he
    have hmem' : h'.stableId ∈ s.map AppHand.stableId :=
      List.mem_map_of_mem AppHand.stableId hh'
    have := hdisj hmem' (by rw [he]; exact List.mem_cons_self _ _)
    exact this
  have hfold : showWinnerTick now (s ++ h :: t) winning st =
      showWinnerTick now t winning (showWinnerHandStep now winning
        (showWinnerTick now s winning st) h) := by
    rw [showWinnerTick, List.foldl_append, List.foldl_cons]
    rfl
  refine ⟨?_, ?_, rfl, rfl, rfl⟩
  · intro hopen hcap habs
    rw [hfold]
    have hpre_none : ∀ q ∈ (showWinnerTick now s winning st).pendingCaptures,
        q.1 ≠ h.stableId :=
      showWinnerTick_pending_none now winning s st h.stableId habs hs_ne
    have hpre_cap : (showWinnerTick now s winning st).capturedWinnerIds =
        st.capturedWinnerIds := showWinnerTick_captured now winning s st
    have hstep : (h.stableId, now + CAPTURE_DELAY_MS) ∈
        (showWinnerHandStep now winning (showWinnerTick now s winning st)
          h).pendingCaptures := by
      rw [showWinnerHandStep, if_pos hwin,
        if_pos (by rw [hpre_cap]; exact ⟨hopen, hcap⟩)]
      have hfind : ¬(((showWinnerTick now s winning st).pendingCaptures.find?
          (fun p => p.1 == h.stableId)).isSome : Prop) := by
        intro hsome
        rw [List.find?_isSome] at hsome
        obtain ⟨q, hq, hq'⟩ := hsome
        exact hpre_none q hq (by simpa using hq')
      rw [if_neg hfind]
      exact List.mem_append_right _ (List.mem_singleton.mpr rfl)
    exact showWinnerTick_pending_mono now winning t _ _ hstep
      (fun h' hh' he => absurd he (ht_ne h' hh'))
  · intro hfist
    rw [hfold]
    have hnot2 : ¬(h.isFist = false ∧ h.stableId ∉
        (showWinnerTick now s winning st).capturedWinnerIds) := by
      rintro ⟨hf, -⟩
      rw [hfist] at hf
      simp at hf
    have hstep_none : ∀ q ∈ (showWinnerHandStep now winning
        (showWinnerTick now s winning st) h).pendingCaptures,
        q.1 ≠ h.stableId := by
      intro q hq
      rw [showWinnerHandStep, if_pos hwin, if_neg hnot2, if_pos hfist] at hq
      have := List.of_mem_filter hq
      simpa using this
    exact showWinnerTick_pending_none now winning t _ h.stableId hstep_none
      (ht_ne)

/-- C9 witness: one winning open hand (id 7), empty capture state. -/
theorem showWinner_capture_gating_witness :
    (((⟨7, Facing.Palm, false, 0⟩ : AppHand).isFist = false →
      (⟨7, Facing.Palm, false, 0⟩ : AppHand).stableId ∉
        handleResetCaptures.capturedWinnerIds →
      (∀ q ∈ handleResetCaptures.pendingCaptures,
        q.1 ≠ (⟨7, Facing.Palm, false, 0⟩ : AppHand).stableId) →
      ((⟨7, Facing.Palm, false, 0⟩ : AppHand).stableId,
        (1000 : ℤ) + CAPTURE_DELAY_MS) ∈
        (showWinnerTick 1000 [⟨7, Facing.Palm, false, 0⟩] [7]
          handleResetCaptures).pendingCaptures)) ∧
    (((⟨7, Facing.Palm, false, 0⟩ : AppHand).isFist = true →
      ∀ q ∈ (showWinnerTick 1000 [⟨7, Facing.Palm, false, 0⟩] [7]
        handleResetCaptures).pendingCaptures,
        q.1 ≠ (⟨7, Facing.Palm, false, 0⟩ : AppHand).stableId)) ∧
    handleResetCaptures.pendingCaptures = [] ∧
    handleResetCaptures.shouldCapture = false ∧
    handleResetCaptures.capturedWinnerIds = [] :=
  showWinner_capture_gating 1000 [⟨7, Facing.Palm, false, 0⟩] [7]
    handleResetCaptures ⟨7, Facing.Palm, false, 0⟩
    (List.mem_singleton.mpr rfl) (by decide) (by decide)

end LuckyDraw
